import Mathlib

/-!
Verification development for the renglo agent execution core
(`renglo/agent/agent_utilities.py`).

We give a shallow embedding of the Python code.  Python values that can
appear in workspace documents, chat messages and collaborator responses are
modelled by the inductive type `Val`:

* Python `str`, `int`, `bool`, `None` map to the corresponding constructors;
* Python `float` values are modelled by their `repr` string (Python `repr`
  is injective on floats, and the code never does float arithmetic);
* `decimal.Decimal` values are modelled as a mantissa/scale pair `dec m e`
  denoting `m / 10^e`;
* Python `dict` is modelled as an association list of key/value pairs in
  insertion order (Python dicts preserve insertion order and cannot hold
  duplicate keys); `list` is a `List Val`.

Value equality is structural; Python cross-type numeric equality
(`1 == 1.0`) is not modelled — the code only ever compares strings, ids
and document keys.  Exceptions are modelled with `Option`: a `none` result
of a helper stands for a raised exception, which the caller either
propagates or catches exactly where the Python code does.

External collaborators (the chat/workspace store `CHC`, the Python `json`
module, the LLM) are parameters of the embedded functions, exactly at the
call boundaries the source uses.
-/

inductive Val where
  | str : String → Val
  | int : Int → Val
  | bool : Bool → Val
  | float : String → Val
  | dec : Int → Nat → Val
  | list : List Val → Val
  | dict : List (Val × Val) → Val
  | none : Val

namespace Renglo

open Val

mutual
/-- Structural equality test on `Val` (models Python `==` on the plain
data the source compares: strings, numbers, ids, documents). -/
def beqVal : Val → Val → Bool
  | .str a, .str b => a == b
  | .int a, .int b => a == b
  | .bool a, .bool b => a == b
  | .float a, .float b => a == b
  | .dec m e, .dec m2 e2 => m == m2 && e == e2
  | .list l, .list l2 => beqValList l l2
  | .dict d, .dict d2 => beqValPairs d d2
  | .none, .none => true
  | _, _ => false

def beqValList : List Val → List Val → Bool
  | [], [] => true
  | x :: xs, y :: ys => beqVal x y && beqValList xs ys
  | _, _ => false

def beqValPairs : List (Val × Val) → List (Val × Val) → Bool
  | [], [] => true
  | (k, v) :: xs, (k2, v2) :: ys => beqVal k k2 && beqVal v v2 && beqValPairs xs ys
  | _, _ => false
end

mutual
theorem beqVal_refl : ∀ a : Val, beqVal a a = true
  | .str _ => by simp [beqVal]
  | .int _ => by simp [beqVal]
  | .bool _ => by simp [beqVal]
  | .float _ => by simp [beqVal]
  | .dec _ _ => by simp [beqVal]
  | .list l => by simp [beqVal, beqValList_refl l]
  | .dict d => by simp [beqVal, beqValPairs_refl d]
  | .none => by simp [beqVal]

theorem beqValList_refl : ∀ l : List Val, beqValList l l = true
  | [] => by simp [beqValList]
  | x :: xs => by simp [beqValList, beqVal_refl x, beqValList_refl xs]

theorem beqValPairs_refl : ∀ d : List (Val × Val), beqValPairs d d = true
  | [] => by simp [beqValPairs]
  | (k, v) :: kvs => by
      simp [beqValPairs, beqVal_refl k, beqVal_refl v, beqValPairs_refl kvs]
end

mutual
theorem beqVal_eq : ∀ a b : Val, beqVal a b = true → a = b
  | .str _, .str _, h => by simp [beqVal] at h; simp [h]
  | .int _, .int _, h => by simp [beqVal] at h; simp [h]
  | .bool _, .bool _, h => by simp [beqVal] at h; simp [h]
  | .float _, .float _, h => by simp [beqVal] at h; simp [h]
  | .dec _ _, .dec _ _, h => by
      simp [beqVal] at h
      simp [h.1, h.2]
  | .list l, .list l2, h => by
      simp only [beqVal] at h
      simp [beqValList_eq l l2 h]
  | .dict d, .dict d2, h => by
      simp only [beqVal] at h
      simp [beqValPairs_eq d d2 h]
  | .none, .none, _ => rfl
  | .str _, .int _, h => by simp [beqVal] at h
  | .str _, .bool _, h => by simp [beqVal] at h
  | .str _, .float _, h => by simp [beqVal] at h
  | .str _, .dec _ _, h => by simp [beqVal] at h
  | .str _, .list _, h => by simp [beqVal] at h
  | .str _, .dict _, h => by simp [beqVal] at h
  | .str _, .none, h => by simp [beqVal] at h
  | .int _, .str _, h => by simp [beqVal] at h
  | .int _, .bool _, h => by simp [beqVal] at h
  | .int _, .float _, h => by simp [beqVal] at h
  | .int _, .dec _ _, h => by simp [beqVal] at h
  | .int _, .list _, h => by simp [beqVal] at h
  | .int _, .dict _, h => by simp [beqVal] at h
  | .int _, .none, h => by simp [beqVal] at h
  | .bool _, .str _, h => by simp [beqVal] at h
  | .bool _, .int _, h => by simp [beqVal] at h
  | .bool _, .float _, h => by simp [beqVal] at h
  | .bool _, .dec _ _, h => by simp [beqVal] at h
  | .bool _, .list _, h => by simp [beqVal] at h
  | .bool _, .dict _, h => by simp [beqVal] at h
  | .bool _, .none, h => by simp [beqVal] at h
  | .float _, .str _, h => by simp [beqVal] at h
  | .float _, .int _, h => by simp [beqVal] at h
  | .float _, .bool _, h => by simp [beqVal] at h
  | .float _, .dec _ _, h => by simp [beqVal] at h
  | .float _, .list _, h => by simp [beqVal] at h
  | .float _, .dict _, h => by simp [beqVal] at h
  | .float _, .none, h => by simp [beqVal] at h
  | .dec _ _, .str _, h => by simp [beqVal] at h
  | .dec _ _, .int _, h => by simp [beqVal] at h
  | .dec _ _, .bool _, h => by simp [beqVal] at h
  | .dec _ _, .float _, h => by simp [beqVal] at h
  | .dec _ _, .list _, h => by simp [beqVal] at h
  | .dec _ _, .dict _, h => by simp [beqVal] at h
  | .dec _ _, .none, h => by simp [beqVal] at h
  | .list _, .str _, h => by simp [beqVal] at h
  | .list _, .int _, h => by simp [beqVal] at h
  | .list _, .bool _, h => by simp [beqVal] at h
  | .list _, .float _, h => by simp [beqVal] at h
  | .list _, .dec _ _, h => by simp [beqVal] at h
  | .list _, .dict _, h => by simp [beqVal] at h
  | .list _, .none, h => by simp [beqVal] at h
  | .dict _, .str _, h => by simp [beqVal] at h
  | .dict _, .int _, h => by simp [beqVal] at h
  | .dict _, .bool _, h => by simp [beqVal] at h
  | .dict _, .float _, h => by simp [beqVal] at h
  | .dict _, .dec _ _, h => by simp [beqVal] at h
  | .dict _, .list _, h => by simp [beqVal] at h
  | .dict _, .none, h => by simp [beqVal] at h
  | .none, .str _, h => by simp [beqVal] at h
  | .none, .int _, h => by simp [beqVal] at h
  | .none, .bool _, h => by simp [beqVal] at h
  | .none, .float _, h => by simp [beqVal] at h
  | .none, .dec _ _, h => by simp [beqVal] at h
  | .none, .list _, h => by simp [beqVal] at h
  | .none, .dict _, h => by simp [beqVal] at h

theorem beqValList_eq : ∀ l l2 : List Val, beqValList l l2 = true → l = l2
  | [], [], _ => rfl
  | x :: xs, y :: ys, h => by
      simp only [beqValList, Bool.and_eq_true] at h
      simp [beqVal_eq x y h.1, beqValList_eq xs ys h.2]
  | [], _ :: _, h => by simp [beqValList] at h
  | _ :: _, [], h => by simp [beqValList] at h

theorem beqValPairs_eq : ∀ d d2 : List (Val × Val), beqValPairs d d2 = true → d = d2
  | [], [], _ => rfl
  | (k, v) :: xs, (k2, v2) :: ys, h => by
      simp only [beqValPairs, Bool.and_eq_true] at h
      simp [beqVal_eq k k2 h.1.1, beqVal_eq v v2 h.1.2, beqValPairs_eq xs ys h.2]
  | [], _ :: _, h => by simp [beqValPairs] at h
  | _ :: _, [], h => by simp [beqValPairs] at h
end

instance : DecidableEq Val := fun a b =>
  if h : beqVal a b = true then
    isTrue (beqVal_eq a b h)
  else
    isFalse (fun he => h (he ▸ beqVal_refl a))

/-- Association-list lookup: Python `d[k]` (first — and in a real Python
dict only — binding wins); `Option.none` models `KeyError`. -/
def dGet (d : List (Val × Val)) (k : Val) : Option Val :=
  match d with
  | [] => Option.none
  | (k₀, v₀) :: rest => if k₀ = k then some v₀ else dGet rest k

/-- Python `d[k] = v`: replaces the value in place if the key exists
(keeping its position), otherwise appends the new binding. -/
def dSet (d : List (Val × Val)) (k : Val) (v : Val) : List (Val × Val) :=
  if d.any (fun kv => kv.1 = k) then
    d.map (fun kv => if kv.1 = k then (k, v) else kv)
  else
    d ++ [(k, v)]

/-- Python `k in d` for a dict. -/
def dHas (d : List (Val × Val)) (k : Val) : Bool :=
  d.any (fun kv => kv.1 = k)

/-- Python `isinstance(v, dict)` view. -/
def asDict : Val → Option (List (Val × Val))
  | .dict d => some d
  | _ => Option.none

/-- Python `isinstance(v, list)` view. -/
def asList : Val → Option (List Val)
  | .list l => some l
  | _ => Option.none

/-- Python `isinstance(v, str)` view. -/
def asStr : Val → Option String
  | .str s => some s
  | _ => Option.none

/-- Subscript read `v[k]` on a value that must be a dict; `none` models
`TypeError`/`KeyError`. -/
def vGet (v : Val) (k : Val) : Option Val := do
  let d ← asDict v
  dGet d k

/-- Subscript write `v[k] = x` on a value that must be a dict. -/
def vSet (v : Val) (k : Val) (x : Val) : Option Val := do
  let d ← asDict v
  pure (.dict (dSet d k x))

/-- Nested write `v[k1][k2] = x`: reads `v[k1]` (raising if absent),
then assigns into it. -/
def vSet2 (v : Val) (k1 k2 : Val) (x : Val) : Option Val := do
  let inner ← vGet v k1
  let inner2 ← vSet inner k2 x
  vSet v k1 inner2

/-- Nested write `v[k1][k2][k3] = x`. -/
def vSet3 (v : Val) (k1 k2 k3 : Val) (x : Val) : Option Val := do
  let inner ← vGet v k1
  let inner2 ← vSet2 inner k2 k3 x
  vSet v k1 inner2

/-- Nested read `v[k1][k2]`. -/
def vGet2 (v : Val) (k1 k2 : Val) : Option Val := do
  let inner ← vGet v k1
  vGet inner k2

/-- Python `d.get(k)` / `d.get(k, default)` on a value that must be a
dict (`AttributeError` — modelled `none` — otherwise). -/
def vGetD (v : Val) (k : Val) (dflt : Val) : Option Val := do
  let d ← asDict v
  pure ((dGet d k).getD dflt)

/-- Python truthiness of a value. -/
def pyTruthy : Val → Bool
  | .str s => s ≠ ""
  | .int n => n ≠ 0
  | .bool b => b
  | .float f => f ≠ "0.0" && f ≠ "-0.0"
  | .dec m _ => m ≠ 0
  | .list l => !l.isEmpty
  | .dict d => !d.isEmpty
  | .none => false

/-- Python `k in v` for dicts (key membership), lists (element
membership) and strings (substring); other receivers raise `TypeError`. -/
def pyIn (k : Val) (v : Val) : Option Bool :=
  match v with
  | .dict d => some (dHas d k)
  | .list l => some (l.contains k)
  | .str s =>
      match k with
      | .str ks => some ((ks.isPrefixOf s) || (s.splitOn ks).length > 1)
      | _ => Option.none
  | _ => Option.none

/-- Rendering of a Decimal `m / 10^e` the way Python `str` prints it
(scale preserved, e.g. `dec 15 1` prints `1.5`). -/
def decStr (m : Int) (e : Nat) : String :=
  if e = 0 then toString m
  else
    let sign := if m < 0 then "-" else ""
    let a := m.natAbs
    let digits := toString a
    let digits := if digits.length ≤ e then
        String.mk (List.replicate (e + 1 - digits.length) '0') ++ digits
      else digits
    let ip := digits.take (digits.length - e)
    let fp := digits.drop (digits.length - e)
    sign ++ ip ++ "." ++ fp

mutual
/-- Python `repr(v)` as used inside container rendering.  Simplified:
strings are wrapped in single quotes without escape processing, and a
`Decimal` prints its plain numeric form; the code under verification
never relies on either corner. -/
def pyRepr : Val → String
  | .str s => "'" ++ s ++ "'"
  | .int n => toString n
  | .bool b => if b then "True" else "False"
  | .float f => f
  | .dec m e => decStr m e
  | .none => "None"
  | .list l => "[" ++ String.intercalate ", " (pyReprList l) ++ "]"
  | .dict d => "\x7b" ++ String.intercalate ", " (pyReprPairs d) ++ "\x7d"

def pyReprList : List Val → List String
  | [] => []
  | x :: xs => pyRepr x :: pyReprList xs

def pyReprPairs : List (Val × Val) → List String
  | [] => []
  | (k, v) :: kvs => (pyRepr k ++ ": " ++ pyRepr v) :: pyReprPairs kvs
end

/-- Python `str(v)`: identical to `repr` except on strings, which print
unquoted. -/
def pyStr : Val → String
  | .str s => s
  | v => pyRepr v

/-- Model of the Python `json` module as used by the source: `parse`
models `json.loads` on a string (`none` = `json.JSONDecodeError`) and
`dumps` models `json.dumps`. -/
structure JsonOps where
  parse : String → Option Val
  dumps : Val → String

/-- A minimal concrete `json` model used by closed witnesses: it parses
only the empty JSON object. -/
def jsonToy : JsonOps where
  parse s := if s = "\x7b\x7d" then some (.dict []) else Option.none
  dumps _ := ""

mutual
/-- `AgentUtilities.sanitize` (agent_utilities.py lines 996-1020).
Recurses into lists and dicts (keys untouched), converts a `Decimal`
to `int` when it is a whole number and to `float` otherwise, converts a
`float` to its `str`, and passes everything else (including `bool`,
which Python routes through the `isinstance(obj, int)` branch
unchanged) through.  Conversion of a non-whole Decimal to a binary
float is modelled as printing its decimal form (`decStr`); the claims
never depend on which float is produced, only on its kind. -/
def sanitize : Val → Val
  | .list l => .list (sanitizeList l)
  | .dict d => .dict (sanitizeDict d)
  | .dec m e => if ((10 : Int) ^ e) ∣ m then .int (m / ((10 : Int) ^ e)) else .float (decStr m e)
  | .float f => .str f
  | .int n => .int n
  | v => v

def sanitizeList : List Val → List Val
  | [] => []
  | x :: xs => sanitize x :: sanitizeList xs

def sanitizeDict : List (Val × Val) → List (Val × Val)
  | [] => []
  | (k, v) :: kvs => (k, sanitize v) :: sanitizeDict kvs
end

mutual
/-- No `Decimal` representing a non-whole number occurs anywhere in the
value. -/
def wholeDecsOnly : Val → Prop
  | .dec m e => ((10 : Int) ^ e) ∣ m
  | .list l => wholeDecsOnlyList l
  | .dict d => wholeDecsOnlyDict d
  | _ => True

def wholeDecsOnlyList : List Val → Prop
  | [] => True
  | x :: xs => wholeDecsOnly x ∧ wholeDecsOnlyList xs

def wholeDecsOnlyDict : List (Val × Val) → Prop
  | [] => True
  | (_, v) :: kvs => wholeDecsOnly v ∧ wholeDecsOnlyDict kvs
end

mutual
def decWholeDecsOnly : (v : Val) → Decidable (wholeDecsOnly v)
  | .dec m e => by unfold wholeDecsOnly; infer_instance
  | .list l => by unfold wholeDecsOnly; exact decWholeDecsOnlyList l
  | .dict d => by unfold wholeDecsOnly; exact decWholeDecsOnlyDict d
  | .str _ => by unfold wholeDecsOnly; infer_instance
  | .int _ => by unfold wholeDecsOnly; infer_instance
  | .bool _ => by unfold wholeDecsOnly; infer_instance
  | .float _ => by unfold wholeDecsOnly; infer_instance
  | .none => by unfold wholeDecsOnly; infer_instance

def decWholeDecsOnlyList : (l : List Val) → Decidable (wholeDecsOnlyList l)
  | [] => by unfold wholeDecsOnlyList; infer_instance
  | x :: xs => by
      unfold wholeDecsOnlyList
      exact @instDecidableAnd _ _ (decWholeDecsOnly x) (decWholeDecsOnlyList xs)

def decWholeDecsOnlyDict : (d : List (Val × Val)) → Decidable (wholeDecsOnlyDict d)
  | [] => by unfold wholeDecsOnlyDict; infer_instance
  | (k, v) :: kvs => by
      unfold wholeDecsOnlyDict
      exact @instDecidableAnd _ _ (decWholeDecsOnly v) (decWholeDecsOnlyDict kvs)
end

instance : DecidablePred wholeDecsOnly := decWholeDecsOnly

/-! ## Belief ledger pruning (`AgentUtilities.prune_history`, lines 1022-1053) -/

/-- `item['key']` — raises (`none`) if the entry is not a dict or has no
`key` field. -/
def getHKey (v : Val) : Option Val := vGet v (.str "key")

/-- Second pass of `prune_history`: iterate the history in reverse,
keeping the first occurrence of each key (Python uses a `seen_keys` set;
the accumulator list has the same membership semantics). -/
def pruneScan : List Val → List Val → Option (List Val)
  | [], _ => some []
  | x :: xs, seen => do
      let k ← getHKey x
      if k ∈ seen then pruneScan xs seen
      else do
        let r ← pruneScan xs (k :: seen)
        pure (x :: r)

/-- First pass of `prune_history` (the `latest_values` dict): the built
mapping is never read, so its only observable effect is raising on an
entry without a `key` field. -/
def firstPassKeys : List Val → Option Unit
  | [] => some ()
  | x :: xs => do
      let _ ← getHKey x
      firstPassKeys xs

/-- `AgentUtilities.prune_history`: the first pass walks every entry
(reading its `key`), the second pass scans the reversed list keeping
first occurrences, and the result is reversed back. -/
def prune_history (history : List Val) : Option (List Val) := do
  let _ ← firstPassKeys history
  let pruned ← pruneScan history.reverse []
  pure pruned.reverse

/-- Specification-side characterisation for C6: keep an entry exactly
when no later entry carries the same key (so the survivor for each key
is the one closest to the end), preserving relative order. -/
def keepLastByKey : List Val → List Val
  | [] => []
  | x :: xs =>
      if xs.any (fun y => getHKey y = getHKey x) then keepLastByKey xs
      else x :: keepLastByKey xs

/-- `keepLastByKey` generalised by a set of keys already claimed by later
entries (proof device for relating it to the reverse scan). -/
def keepLastSeen : List Val → List Val → List Val
  | [], _ => []
  | x :: xs, seen =>
      if (match getHKey x with
          | some k => seen.contains k
          | Option.none => false)
         || xs.any (fun y => getHKey y = getHKey x) then keepLastSeen xs seen
      else x :: keepLastSeen xs seen

/-! ## Response validator (`validate_interpret_openai_llm_response`,
lines 1242-1321) and its JSON-repair helper. -/

/-- Validation outcome: `ok` carries the (possibly repaired) message the
Python code returns under `output`; `fail` carries the violation text.
Quotes inside the original Python messages are dropped. -/
inductive VResult where
  | ok : Val → VResult
  | fail : String → VResult
deriving DecidableEq

/-- `AgentUtilities.remove_outer_escape` (lines 1211-1240): parse the
outer JSON string; if the result is again a string parse it once more;
re-serialise; any `JSONDecodeError` is caught and yields `None`. -/
def remove_outer_escape (J : JsonOps) (s : String) : Option String :=
  match J.parse s with
  | Option.none => Option.none
  | some (.str inner) =>
      match J.parse inner with
      | Option.none => Option.none
      | some v => some (J.dumps v)
  | some v => some (J.dumps v)

/-- Per-entry tool-call validation from the `for tool_call in
response['tool_calls']` loop.  `Except.error` is a structured validation
failure; the returned value is the (possibly argument-repaired) entry. -/
def validateToolCall (J : JsonOps) (tc : Val) : Except String Val :=
  match asDict tc with
  | Option.none => .error "Each tool call must be a dictionary"
  | some d =>
    let nullOrMissing : String → Bool := fun f =>
      match dGet d (.str f) with
      | Option.none => true
      | some .none => true
      | some _ => false
    if nullOrMissing "id" then .error "Tool call missing required field id or field is null"
    else if nullOrMissing "type" then .error "Tool call missing required field type or field is null"
    else if nullOrMissing "function" then .error "Tool call missing required field function or field is null"
    else if (dGet d (.str "type")).getD .none ≠ .str "function" then
      .error "Tool call type must be function"
    else
      match (dGet d (.str "function")).getD .none with
      | .dict fd =>
        let fNullOrMissing : String → Bool := fun f =>
          match dGet fd (.str f) with
          | Option.none => true
          | some .none => true
          | some _ => false
        if fNullOrMissing "name" then .error "Tool call function missing required field name or field is null"
        else if fNullOrMissing "arguments" then .error "Tool call function missing required field arguments or field is null"
        else
          match (dGet fd (.str "arguments")).getD .none with
          | .str s =>
            match J.parse s with
            | some _ => .ok tc
            | Option.none =>
              match remove_outer_escape J s with
              | some es =>
                if es ≠ "" then
                  match J.parse es with
                  | some _ =>
                      .ok (.dict (dSet d (.str "function")
                        (.dict (dSet fd (.str "arguments") (.str es)))))
                  | Option.none => .error "Tool call arguments must be a valid JSON string after cleaning"
                else .error "Tool call arguments must be a valid JSON string"
              | Option.none => .error "Tool call arguments must be a valid JSON string"
          | _ => .ok tc
      | _ => .error "Tool call function must be a dictionary"

def validateToolCalls (J : JsonOps) : List Val → Except String (List Val)
  | [] => .ok []
  | tc :: rest =>
      match validateToolCall J tc with
      | .error e => .error e
      | .ok tc2 =>
          match validateToolCalls J rest with
          | .error e => .error e
          | .ok rest2 => .ok (tc2 :: rest2)

/-- `AgentUtilities.validate_interpret_openai_llm_response`.
`_convert_to_dict` is the identity on already-plain values (it only
unwraps OpenAI SDK objects, which lie outside the model).  The outer
`Option` models an uncaught exception (the function has no `try`): a
non-container input makes the `'role' not in response` membership test
raise. -/
def validate_interpret_openai_llm_response (J : JsonOps) (raw : Val) : Option VResult := do
  let response := raw
  let hasRole ← pyIn (.str "role") response
  if ¬hasRole then
    pure (.fail "Response missing required role field")
  else do
    let role ← vGet response (.str "role")
    if role ≠ .str "assistant" then
      pure (.fail "Response role must be assistant")
    else do
      let hasContentKey ← pyIn (.str "content") response
      let has_content ←
        if hasContentKey then do
          let c ← vGet response (.str "content")
          pure (decide (c ≠ Val.none))
        else pure false
      let hasTCKey ← pyIn (.str "tool_calls") response
      let has_tool_calls ←
        if hasTCKey then do
          let c ← vGet response (.str "tool_calls")
          pure (decide (c ≠ Val.none))
        else pure false
      if ¬(has_content || has_tool_calls) then
        pure (.fail "Response must have either non-null content or non-null tool_calls")
      else do
        let response ←
          if has_content && has_tool_calls then
            vSet response (.str "content") (.str "")
          else pure response
        let step ←
          if has_tool_calls then do
            let tcv ← vGet response (.str "tool_calls")
            match asList tcv with
            | Option.none => pure (Except.error "tool_calls must be a list")
            | some tcs =>
                match validateToolCalls J tcs with
                | .error e => pure (Except.error e)
                | .ok tcs2 => do
                    let r2 ← vSet response (.str "tool_calls") (.list tcs2)
                    pure (Except.ok r2)
          else pure (Except.ok response)
        match step with
        | .error e => pure (.fail e)
        | .ok response => do
          if has_content then do
            let c ← vGet response (.str "content")
            match c with
            | .str _ => pure (.ok response)
            | _ => pure (.fail "Content must be a string")
          else pure (.ok response)

/-! ## Tool-history trimming (`clear_tool_message_content`, lines
1323-1368) -/

/-- First loop of `clear_tool_message_content`: walk indices from the
end, collect indices of `tool`-role messages, stop once `recent` of them
are found.  Input is the `(index, message)` list in descending index
order; only messages actually inspected can raise. -/
def findToolIndices : List (Nat × Val) → Nat → List Nat → Option (List Nat)
  | [], _, acc => some acc
  | (i, m) :: rest, recent, acc => do
      let role ← vGetD m (.str "role") Val.none
      if role = .str "tool" then
        let acc2 := acc ++ [i]
        if acc2.length ≥ recent then some acc2
        else findToolIndices rest recent acc2
      else findToolIndices rest recent acc

/-- Body of the second loop: clear the content of a non-recent tool
message; otherwise coerce content to a string (JSON dump for lists and
dicts after sanitizing, Python `str` otherwise, with `''` as the default
for a missing content field). -/
def clearOne (J : JsonOps) (toolIdx : List Nat) (i : Nat) (m : Val) : Option Val := do
  let role ← vGetD m (.str "role") Val.none
  if role = .str "tool" && !(toolIdx.contains i) then
    vSet m (.str "content") (.str "")
  else do
    let c ← vGetD m (.str "content") Val.none
    match c with
    | .list _ => vSet m (.str "content") (.str (J.dumps (sanitize c)))
    | .dict _ => vSet m (.str "content") (.str (J.dumps (sanitize c)))
    | _ => do
        let c2 ← vGetD m (.str "content") (.str "")
        vSet m (.str "content") (.str (pyStr (sanitize c2)))

def clearLoop (J : JsonOps) (toolIdx : List Nat) : Nat → List Val → Option (List Val)
  | _, [] => some []
  | i, m :: rest => do
      let m2 ← clearOne J toolIdx i m
      let r ← clearLoop J toolIdx (i + 1) rest
      pure (m2 :: r)

/-- The `(index, message)` pairs of `enumerate(message_list)` starting at
index `i`. -/
def idxList (i : Nat) : List Val → List (Nat × Val)
  | [] => []
  | m :: rest => (i, m) :: idxList (i + 1) rest

/-- `AgentUtilities.clear_tool_message_content`.  `recent` is the
`recent_tool_messages` parameter (default 1 at the call site).  The
first loop walks `range(len(message_list)-1, -1, -1)`, i.e. the indexed
messages in reverse. -/
def clear_tool_message_content (J : JsonOps) (ml : List Val) (recent : Nat := 1) :
    Option (List Val) := do
  let tIdx ← findToolIndices (idxList 0 ml).reverse recent []
  clearLoop J tIdx 0 ml

/-! ## Chat persistence (`update_chat_message_document` lines 157-191,
`save_chat` lines 224-336) -/

/-- One call to `CHC.update_turn`: the message document appended (or the
in-place tool-response fill when `callId` is a tool-call id rather than
the default `False`). -/
structure ChatWrite where
  doc : Val
  callId : Val
deriving DecidableEq

/-- `AgentUtilities.update_chat_message_document`: performs the store
call and converts its outcome into a result dict.  A store response
without a `'success'` key — and equally a raising store, via the
function's own `except` — yields `{'success': False}`; the write itself
(second component) has been issued either way.  `updResp` is the store's
response, a collaborator input. -/
def update_chat_message_document (updResp : Val) (update : Val) (callId : Val) :
    Val × ChatWrite :=
  (match pyIn (.str "success") updResp with
   | some true => .dict [(.str "success", .bool true)]
   | _ => .dict [(.str "success", .bool false)]
  , ⟨update, callId⟩)

/-- Placeholder loop of the `tool_rq` branch of `save_chat` (lines
275-283): one empty `tool_rs` document per tool call, correlated by the
call id.  An entry without an `id` raises, aborting the loop after the
writes already made (the exception is caught by `save_chat`). -/
def placeholderWrites (next : Val) : List Val → List ChatWrite
  | [] => []
  | tc :: rest =>
      match vGet tc (.str "id") with
      | Option.none => []
      | some idv =>
          ⟨.dict [(.str "_out", .dict [(.str "role", .str "tool"),
                                       (.str "tool_call_id", idv),
                                       (.str "content", .list [])]),
                  (.str "_type", .str "tool_rs"),
                  (.str "_next", next)], .bool false⟩ :: placeholderWrites next rest

/-- `AgentUtilities.save_chat`.  Returns the sequence of store writes it
performs; its Python return value is always `None` and every internal
exception is caught by the enclosing `try`, so no success indication
reaches the caller (`updResp`, the store response used by each
`update_chat_message_document` call, is checked there and the resulting
dict discarded, mirroring the source).  Push-channel output
(`print_chat` / `print_api`) is not a store write and is not modelled.
Iterating a truthy non-list `tool_calls` raises at the first element
subscript, producing no placeholder write. -/
def save_chat (updResp : Val) (output : Val) (interface : Val := .none)
    (next : Val := .none) (msg_type : Val := .none) : List ChatWrite :=
  if msg_type = .str "consent" then
    let iface := if ¬pyTruthy interface then .str "binary_consent" else interface
    let (_, w) := update_chat_message_document updResp
      (.dict [(.str "_out", sanitize output), (.str "_type", .str "consent"),
              (.str "_interface", iface), (.str "_next", next)]) (.bool false)
    [w]
  else if msg_type = .str "widget" then
    let iface := if ¬pyTruthy interface then .str "" else interface
    let (_, w) := update_chat_message_document updResp
      (.dict [(.str "_out", sanitize output), (.str "_type", .str "widget"),
              (.str "_interface", iface)]) (.bool false)
    [w]
  else
    match asDict output with
    | Option.none => []
    | some od =>
      let tool_calls := (dGet od (.str "tool_calls")).getD .none
      let role := (dGet od (.str "role")).getD .none
      if pyTruthy tool_calls && role = .str "assistant" then
        let (_, wrq) := update_chat_message_document updResp
          (.dict [(.str "_out", sanitize output), (.str "_type", .str "tool_rq"),
                  (.str "_next", next)]) (.bool false)
        wrq ::
          (match tool_calls with
           | .list tcs => placeholderWrites next tcs
           | _ => [])
      else if pyTruthy ((dGet od (.str "content")).getD .none) && role = .str "assistant" then
        let (_, w) := update_chat_message_document updResp
          (.dict [(.str "_out", sanitize output), (.str "_type", .str "text"),
                  (.str "_next", next)]) (.bool false)
        [w]
      else if dHas od (.str "tool_call_id") && dHas od (.str "role")
              && (dGet od (.str "role")).getD .none = .str "tool" then
        let (_, w) := update_chat_message_document updResp
          (.dict [(.str "_out", sanitize output), (.str "_type", .str "tool_rs"),
                  (.str "_interface", interface), (.str "_next", next)])
          ((dGet od (.str "tool_call_id")).getD .none)
        [w]
      else []

/-! ## Workspace mutation engine (`get_or_create_step` lines 434-471,
`mutate_workspace` lines 473-738, `update_workspace_document` lines
193-220) -/

/-- Store responses consumed by one `mutate_workspace` call, each a plain
response value as returned by the `CHC` collaborator: the first
`list_workspaces` response, the `create_workspace` response, the
regenerated `list_workspaces` response after a creation, and the
`update_workspace` response. -/
structure WorkspaceStore where
  listWorkspacesResp : Val
  createWorkspaceResp : Val
  listWorkspacesResp2 : Val
  updateWorkspaceResp : Val
deriving DecidableEq

/-- Nested read `v[k1][k2][k3]`. -/
def vGet3 (v : Val) (k1 k2 k3 : Val) : Option Val := do
  let inner ← vGet2 v k1 k2
  vGet inner k3

/-- Step scan of `get_or_create_step`: linear search for the first step
whose `step_id` (via `step.get('step_id', '')`), normalised with `str`,
equals the target; a non-dict step raises at `.get`, and exhaustion
models the `IndexError` the function raises for an undeclared step. -/
def findStepIdx : List Val → String → Nat → Option Nat
  | [], _, _ => Option.none
  | s :: rest, tgt, i => do
      let sid ← vGetD s (.str "step_id") (.str "")
      if pyStr sid = tgt then some i else findStepIdx rest tgt (i + 1)

/-- `AgentUtilities.get_or_create_step`: ensures `state_machine`, the
plan entry and its `steps` list exist, then finds the step with matching
`step_id` (matching `str(plan_step)` against `str(step.get('step_id',
''))`).  Returns the (possibly normalised) workspace and the index of
the matching step; `none` models a raised exception — including the
`IndexError` raised when the step is not declared. -/
def get_or_create_step (w : Val) (pid ps : Val) : Option (Val × Nat) := do
  let hasSM ← pyIn (.str "state_machine") w
  let w ← if ¬hasSM then vSet w (.str "state_machine") (.dict []) else pure w
  let sm ← vGet w (.str "state_machine")
  let hasPid ← pyIn pid sm
  let w ← if ¬hasPid then
      vSet2 w (.str "state_machine") pid (.dict [(.str "steps", .list [])])
    else pure w
  let entry ← vGet2 w (.str "state_machine") pid
  let hasSteps ← pyIn (.str "steps") entry
  let w ← if ¬hasSteps then
      vSet3 w (.str "state_machine") pid (.str "steps") (.list [])
    else pure w
  let stepsVal ← vGet3 w (.str "state_machine") pid (.str "steps")
  let steps ← asList stepsVal
  let i ← findStepIdx steps (pyStr ps) 0
  pure (w, i)

/-- The `steps` list of a plan entry (used after `get_or_create_step`,
which guarantees its presence). -/
def stepsListOf (w : Val) (pid : Val) : Option (List Val) := do
  let v ← vGet3 w (.str "state_machine") pid (.str "steps")
  asList v

/-- Write back a mutated step at index `i` (Python mutates the aliased
step dict in place; the pure model replaces the list element). -/
def setStepAt (w : Val) (pid : Val) (i : Nat) (step : Val) : Option Val := do
  let steps ← stepsListOf w pid
  vSet3 w (.str "state_machine") pid (.str "steps") (.list (steps.set i step))

/-- `belief_history` loop: one ledger event per key/value pair, with
`time = datetime.now().isoformat()` (the `now` parameter). -/
def appendHistoryEvents (now : String) : Val → List (Val × Val) → Option Val
  | w, [] => some w
  | w, (k, v) :: rest => do
      let hist ← vGet2 w (.str "state") (.str "history")
      let hl ← asList hist
      let event := Val.dict [(.str "type", .str "belief"), (.str "key", k),
                             (.str "val", sanitize v), (.str "time", .str now)]
      let w2 ← vSet2 w (.str "state") (.str "history") (.list (hl ++ [event]))
      appendHistoryEvents now w2 rest

/-- One iteration of the `for key, output in changes.items()` loop of
`mutate_workspace` (lines 557-722).  Each recognised key has exactly the
source's guard and effect; unrecognised keys are ignored.  `none` models
an exception escaping the iteration (caught by `mutate_workspace`). -/
def applyChange (now : String) (w : Val) (k : Val) (output : Val) : Option Val :=
  match k with
  | .str "belief" =>
      match asDict output with
      | some _ => do
          let so := sanitize output
          let beliefs ← vGet2 w (.str "state") (.str "beliefs")
          let bd ← asDict beliefs
          let sod ← asDict so
          let merged := sod.foldl (fun acc kv => dSet acc kv.1 kv.2) bd
          vSet2 w (.str "state") (.str "beliefs") (sanitize (.dict merged))
      | Option.none => some w
  | .str "desire" =>
      match output with
      | .str _ => vSet2 w (.str "state") (.str "desire") output
      | _ => some w
  | .str "intent" =>
      match asDict output with
      | some _ => vSet w (.str "intent") (sanitize output)
      | Option.none => some w
  | .str "belief_history" =>
      match asDict output with
      | some od => appendHistoryEvents now w od
      | Option.none => some w
  | .str "cache" => do
      let hasCache ← pyIn (.str "cache") w
      let w ← if ¬hasCache then vSet w (.str "cache") (.dict []) else pure w
      match output with
      | .dict od => od.foldlM (fun acc kv => vSet2 acc (.str "cache") kv.1 (sanitize kv.2)) w
      | .list _ => vSet2 w (.str "cache") (.str "results") (sanitize output)
      | _ => some w
  | .str "is_active" =>
      match output with
      | .bool _ => vSet w (.str "data") output
      | _ => some w
  | .str "action" =>
      match output with
      | .str _ => vSet2 w (.str "state") (.str "action") output
      | _ => some w
  | .str "follow_up" =>
      match asDict output with
      | some _ => vSet2 w (.str "state") (.str "follow_up") (sanitize output)
      | Option.none => some w
  | .str "slots" =>
      match asDict output with
      | some _ => vSet2 w (.str "state") (.str "slots") (sanitize output)
      | Option.none => some w
  | .str "plan" =>
      match asDict output with
      | some od => do
          let pid ← dGet od (.str "id")
          let hasPlan ← pyIn (.str "plan") w
          let w ← if ¬hasPlan then vSet w (.str "plan") (.dict []) else pure w
          vSet2 w (.str "plan") pid (sanitize output)
      | Option.none => some w
  | .str "new_state_machine" =>
      match asDict output with
      | some od => do
          let pid ← dGet od (.str "plan_id")
          let hasSM ← pyIn (.str "state_machine") w
          let w ← if ¬hasSM then vSet w (.str "state_machine") (.dict []) else pure w
          let sm ← vGet w (.str "state_machine")
          let hasPid ← pyIn pid sm
          if ¬hasPid then vSet2 w (.str "state_machine") pid (sanitize output)
          else some w
      | Option.none => some w
  | .str "step_state" =>
      match asDict output with
      | some od =>
          if dHas od (.str "plan_id") && dHas od (.str "plan_step") then do
            let pid := (dGet od (.str "plan_id")).getD .none
            let ps := (dGet od (.str "plan_step")).getD .none
            let (w2, i) ← get_or_create_step w pid ps
            let steps ← stepsListOf w2 pid
            let step ← steps[i]?
            let step2 ← (["status", "error", "started_at", "finished_at"]).foldlM
              (fun s f =>
                if dHas od (.str f) then vSet s (.str f) ((dGet od (.str f)).getD .none)
                else pure s) step
            setStepAt w2 pid i step2
          else some w
      | Option.none => some w
  | .str "plan_state" =>
      match asDict output with
      | some od =>
          if dHas od (.str "plan_id") then do
            let pid := (dGet od (.str "plan_id")).getD .none
            let w ← if dHas od (.str "status") then
                vSet2 w (.str "state_machine") pid ((dGet od (.str "status")).getD .none)
              else pure w
            if dHas od (.str "updated_at") then
              vSet2 w (.str "state_machine") pid ((dGet od (.str "updated_at")).getD .none)
            else pure w
          else some w
      | Option.none => some w
  | .str "action_log" =>
      match asDict output with
      | some od => do
          let pid ← dGet od (.str "plan_id")
          let ps ← dGet od (.str "plan_step")
          let log := (["tool", "status", "nonce", "message", "type", "actionable"]).foldl
            (fun (acc : List (Val × Val)) f =>
              if dHas od (.str f) then dSet acc (.str f) ((dGet od (.str f)).getD .none)
              else acc) []
          let (w2, i) ← get_or_create_step w pid ps
          let steps ← stepsListOf w2 pid
          let step ← steps[i]?
          let hasAL ← pyIn (.str "action_log") step
          let step ← if ¬hasAL then vSet step (.str "action_log") (.list []) else pure step
          let al ← vGet step (.str "action_log")
          let all ← asList al
          let step ← vSet step (.str "action_log") (.list (all ++ [Val.dict log]))
          setStepAt w2 pid i step
      | Option.none => some w
  | _ => some w

def applyChanges (now : String) (w : Val) (cd : List (Val × Val)) : Option Val :=
  cd.foldlM (fun acc kv => applyChange now acc kv.1 kv.2) w

/-- The default `state` block inserted when the fetched workspace has no
`state` key (lines 546-553). -/
def defaultState : Val :=
  .dict [(.str "beliefs", .dict []), (.str "desire", .str ""),
         (.str "intent", .list []), (.str "history", .list []),
         (.str "in_progress", Val.none)]

def ensureState (w : Val) : Option Val := do
  let hasState ← pyIn (.str "state") w
  if ¬hasState then vSet w (.str "state") defaultState else pure w

/-- Outcome of the workspace-selection prefix of `mutate_workspace`:
`raise` is an exception (caught by the enclosing `try`), `early` is an
explicit `return False`, `found` carries the selected workspace. -/
inductive SelOut where
  | raise
  | early
  | found (w : Val)
deriving DecidableEq

/-- `for w in workspaces_list['items']: if w['_id'] == workspace_id:
workspace = w` — no `break`, so the last match wins, every item's
`'_id'` is read (raising if absent), and no match leaves `workspace`
unbound (an `UnboundLocalError` at its next use). -/
def selectById (items : List Val) (idv : Val) (acc : Option Val) : SelOut :=
  match items with
  | [] =>
      match acc with
      | some w => .found w
      | Option.none => .raise
  | w :: rest =>
      match vGet w (.str "_id") with
      | Option.none => .raise
      | some wid => selectById rest idv (if wid = idv then some w else acc)

/-- Workspace selection of `mutate_workspace` (lines 500-540): list
workspaces, create one if none exist (re-listing afterwards, without a
success check on the regenerated response), then pick the last item or
the one matching `workspace_id`. -/
def selectWorkspace (st : WorkspaceStore) (wsid : Option Val) : SelOut :=
  match vGet st.listWorkspacesResp (.str "success") with
  | Option.none => .raise
  | some s1 =>
    if ¬pyTruthy s1 then .early
    else
      match vGet st.listWorkspacesResp (.str "items") with
      | Option.none => .raise
      | some itemsV =>
        match asList itemsV with
        | Option.none => .raise
        | some items0 =>
          let cont : List Val → SelOut := fun items =>
            match wsid with
            | Option.none =>
                match items.getLast? with
                | Option.none => .raise
                | some w => .found w
            | some idv => selectById items idv Option.none
          if items0.isEmpty then
            match vGet st.createWorkspaceResp (.str "success") with
            | Option.none => .raise
            | some cs =>
              if ¬pyTruthy cs then .early
              else
                match vGet st.listWorkspacesResp2 (.str "items") with
                | Option.none => .raise
                | some iv2 =>
                  match asList iv2 with
                  | Option.none => .raise
                  | some items2 => cont items2
          else cont items0

/-- `AgentUtilities.update_workspace_document`: issues the
`CHC.update_workspace` call and checks `'success' not in response`.
The function has no `try`, so a membership test on a non-container
response raises into the caller; otherwise it reports success exactly
when the response carries a `'success'` key.  Only the result dict is
modelled here; the caller records the write itself. -/
def update_workspace_document (st : WorkspaceStore) : Option Val :=
  match pyIn (.str "success") st.updateWorkspaceResp with
  | Option.none => Option.none
  | some b =>
      some (.dict [(.str "success", .bool b),
                   (.str "action", .str "update_workspace_document")])

/-- Result of `mutate_workspace`: the boolean the Python function
returns, and — as the observable store effect — the
`(document, workspace id)` pair passed to `CHC.update_workspace`, or
`Option.none` when no store write was issued. -/
structure MutateOut where
  result : Bool
  write : Option (Val × Val)
deriving DecidableEq

/-- `AgentUtilities.mutate_workspace`.  `thread` is `self.thread`,
`now` the wall clock used for ledger events, `changes` the change set
(sanitised on entry), `workspace_id` the optional explicit id.  The
`public_user` payload only feeds `create_workspace`, whose response is
consumed as a success flag, so it does not appear in the model.
A non-dict change set raises at `changes.items()`; every exception is
caught by the enclosing `try` and yields `False`.  The return value of
`update_workspace_document` is discarded (source line 730), so a store
response that merely lacks a `'success'` key still yields `True`. -/
def mutate_workspace (st : WorkspaceStore) (now : String) (thread : Val)
    (changes : Val) (workspace_id : Option Val := Option.none) : MutateOut :=
  if ¬pyTruthy thread then ⟨false, Option.none⟩
  else
    match asDict (sanitize changes) with
    | Option.none => ⟨false, Option.none⟩
    | some cd =>
      match selectWorkspace st workspace_id with
      | .raise => ⟨false, Option.none⟩
      | .early => ⟨false, Option.none⟩
      | .found w0 =>
        match ensureState (sanitize w0) with
        | Option.none => ⟨false, Option.none⟩
        | some w2 =>
          match applyChanges now w2 cd with
          | Option.none => ⟨false, Option.none⟩
          | some w3 =>
            match vGet w3 (.str "_id") with
            | Option.none => ⟨false, Option.none⟩
            | some wsid =>
              let final := sanitize w3
              match update_workspace_document st with
              | Option.none => ⟨false, some (final, wsid)⟩
              | some _ => ⟨true, some (final, wsid)⟩

/-! ## Transcript reading (`get_message_history` lines 81-155,
`get_active_workspace` lines 959-994, `string_from_object` lines
1055-1084) and the Interpret stage (lines 1581-1799). -/

/-- Collaborator inputs of one Interpret cycle. -/
structure Env where
  thread : Val
  now : String
  listTurnsResp : Val
  store : WorkspaceStore
  llm : Val → Val
  J : JsonOps

/-- Message types forwarded to the LLM (line 148). -/
def llmOkTypes : List Val :=
  [.str "user", .str "consent", .str "system", .str "text", .str "tool_rq", .str "tool_rs"]

/-- Inner collection loop of `get_message_history`: for each turn, for
each message, apply the optional begins-with filter, then read `_out`
and keep it if `_type` is an approved type. -/
def collectMessages (filt : Option (Val × String)) : List Val → Option (List Val)
  | [] => some []
  | turn :: rest => do
      let msgsV ← vGet turn (.str "messages")
      let msgs ← asList msgsV
      let fromTurn ← msgs.foldlM (fun (acc : List Val) m => do
        let keep ←
          match filt with
          | Option.none => pure true
          | some (p, fv) => do
              let hasP ← pyIn p m
              if ¬hasP then pure false
              else do
                let pv ← vGet m p
                if pv = Val.none then pure false
                else pure ((pyStr pv).startsWith fv)
        if ¬keep then pure acc
        else do
          let out ← vGet m (.str "_out")
          let mtype ← vGet m (.str "_type")
          if llmOkTypes.contains mtype then pure (acc ++ [out]) else pure acc) []
      let later ← collectMessages filt rest
      pure (fromTurn ++ later)

/-- `AgentUtilities.get_message_history`: returns the Python result dict
(`success`/`output`).  Internal exceptions are caught and reported as a
failure dict whose `output` is an error string (the exact text is not
modelled). -/
def get_message_history (env : Env) (filter : Val := .dict []) : Val :=
  let aux : Option Val := do
    let filt ←
      if pyTruthy filter then do
        let hasParam ← pyIn (.str "param") filter
        let hasBegins ← pyIn (.str "begins_with") filter
        if hasParam && hasBegins then do
          let p ← vGet filter (.str "param")
          let fvv ← vGet filter (.str "begins_with")
          let fv ← asStr fvv
          pure (some (p, fv))
        else pure Option.none
      else pure Option.none
    if ¬pyTruthy env.thread then
      pure (.dict [(.str "success", .bool false),
                   (.str "output", .str "Error: No thread provided")])
    else do
      let hasSuccess ← pyIn (.str "success") env.listTurnsResp
      if ¬hasSuccess then
        pure (.dict [(.str "success", .bool false), (.str "output", env.listTurnsResp)])
      else do
        let itemsV ← vGet env.listTurnsResp (.str "items")
        let items ← asList itemsV
        let ml ← collectMessages filt items
        pure (.dict [(.str "success", .bool true), (.str "output", .list ml)])
  match aux with
  | some r => r
  | Option.none => .dict [(.str "success", .bool false), (.str "output", .str "Error")]

/-- Result of the `for ... else` id lookup in `get_active_workspace`
(with `break`, so the first match wins and later items are not read). -/
inductive FindOut where
  | raise
  | notFound
  | found (w : Val)

def findFirstById (items : List Val) (idv : Val) : FindOut :=
  match items with
  | [] => .notFound
  | w :: rest =>
      match vGet w (.str "_id") with
      | Option.none => .raise
      | some wid => if wid = idv then .found w else findFirstById rest idv

/-- `AgentUtilities.get_active_workspace`: returns the sanitised
workspace, or `False` when none is found.  The function has no `try`,
so `none` models an exception propagating to the caller. -/
def get_active_workspace (st : WorkspaceStore) (wsid : Option Val := Option.none) :
    Option Val := do
  let s ← vGet st.listWorkspacesResp (.str "success")
  if ¬pyTruthy s then pure (.bool false)
  else do
    let itemsV ← vGet st.listWorkspacesResp (.str "items")
    let items ← asList itemsV
    if items.isEmpty then pure (.bool false)
    else
      match wsid with
      | Option.none => do
          let w ← items.getLast?
          pure (sanitize w)
      | some idv =>
          match findFirstById items idv with
          | .raise => Option.none
          | .notFound => pure (.bool false)
          | .found w => pure (sanitize w)

/-- `AgentUtilities.string_from_object`: renders `key = value` pairs
joined by commas.  The three Python formatting branches (`str(value)`
for numbers, identity for strings, `str(value)` otherwise) all coincide
with Python `str`, i.e. `pyStr`. -/
def string_from_object (obj : Val) : Option String :=
  if ¬pyTruthy obj then some ""
  else do
    let d ← asDict obj
    pure (String.intercalate ", " (d.map (fun kv => pyStr kv.1 ++ " = " ++ pyStr kv.2)))

/-- The `for a in list_actions` scan of `interpret` (lines 1616-1621):
first action whose `key` equals the current action wins (`break`);
returns its instruction text and — when `tools_reference` is present,
truthy and not a placeholder — the tools reference. -/
def findAction (current : Val) : List Val → Option (Val × Val)
  | [] => some (.str "", .str "")
  | a :: rest => do
      let k ← vGet a (.str "key")
      if k = current then do
        let instr ← vGet a (.str "prompt_3_reasoning_and_planning")
        let hasTR ← pyIn (.str "tools_reference") a
        let tr ← if hasTR then vGet a (.str "tools_reference") else pure Val.none
        let at2 :=
          if hasTR && pyTruthy tr
             && !([Val.str "_", Val.str "-", Val.str "."].contains tr) then tr
          else .str ""
        pure (instr, at2)
      else findAction current rest

/-- Parameter-schema translation of one tool (lines 1695-1744): the
`input` JSON is parsed (falling back to `[]` on a decode error — but a
non-string `input` raises a `TypeError` that is *not* caught), then a
list of `{name, hint, required}` entries or a legacy `key -> hint`
mapping becomes `properties` plus a `required` array. -/
def buildToolParams : Val → List (Val × Val) × List Val
  | .list params =>
      params.foldl (fun (acc : List (Val × Val) × List Val) p =>
        match p with
        | .dict pd =>
            if dHas pd (.str "name") && dHas pd (.str "hint") then
              let pname := (dGet pd (.str "name")).getD .none
              let phint := (dGet pd (.str "hint")).getD .none
              let preq := (dGet pd (.str "required")).getD (.bool false)
              (dSet acc.1 pname (.dict [(.str "type", .str "string"),
                                        (.str "description", phint)]),
               if pyTruthy preq then acc.2 ++ [pname] else acc.2)
            else acc
        | _ => acc) ([], [])
  | .dict items =>
      items.foldl (fun (acc : List (Val × Val) × List Val) kv =>
        (dSet acc.1 kv.1 (.dict [(.str "type", .str "string"),
                                 (.str "description", kv.2)]),
         acc.2 ++ [kv.1])) ([], [])
  | _ => ([], [])

def buildTools (J : JsonOps) (approved : List String) : List Val → Option (List Val)
  | [] => some []
  | t :: rest => do
      let key ← vGetD t (.str "key") Val.none
      let keep := match key with
                  | .str s => approved.contains s
                  | _ => false
      if keep then do
        let inputV ← vGetD t (.str "input") (.str "[]")
        let inputS ← asStr inputV
        let tool_input := (J.parse inputS).getD (.list [])
        let (props, req) := buildToolParams tool_input
        let nameV ← vGetD t (.str "key") (.str "")
        let goalV ← vGetD t (.str "goal") (.str "")
        let tool := Val.dict [(.str "type", .str "function"),
          (.str "function", .dict [(.str "name", nameV),
            (.str "description", goalV),
            (.str "parameters", .dict [(.str "type", .str "object"),
              (.str "properties", .dict props),
              (.str "required", .list req)])])]
        let later ← buildTools J approved rest
        pure (tool :: later)
      else buildTools J approved rest

def sysMsg (content : Val) : Val :=
  .dict [(.str "role", .str "system"), (.str "content", content)]

/-- The five-message preamble of `interpret` (lines 1637-1652). -/
def metaMessages (now : String) (action_instructions : Val) (belief_str : String) :
    List Val :=
  [sysMsg (.str "You are an AI assistant. You can reason over conversation history, beliefs, and goals."),
   sysMsg (.str ("The current time is: " ++ now)),
   sysMsg action_instructions,
   sysMsg (.str belief_str),
   sysMsg (.str "You can reason over the message history and known facts (beliefs) to answer user questions. If the user asks a question, check the history or beliefs before asking again.")]

/-- The transcript value handed to `clear_tool_message_content`: a list
proceeds normally; an empty string or empty dict (only reachable from a
degenerate failure payload) passes through both loops untouched and
contributes no messages; any other non-list raises inside the loops. -/
def coerceMessageIterable : Val → Option (List Val)
  | .list l => some l
  | .str "" => some []
  | .dict [] => some []
  | _ => Option.none

/-- Pipeline of `interpret` up to and including the assembly and
sanitisation of the LLM prompt (lines 1589-1755); `none` models an
exception caught by the stage's `except` clause. -/
def interpretPrompt (env : Env) (no_tools : Bool) (list_actions : List Val)
    (list_tools : List Val) : Option Val := do
  let mh := get_message_history env
  let mlV ← vGet mh (.str "output")
  let ml0 ← coerceMessageIterable mlV
  let ml ← clear_tool_message_content env.J ml0 1
  let ws ← get_active_workspace env.store
  let current_action ←
    if pyTruthy ws then do
      let st ← vGetD ws (.str "state") (.dict [])
      vGetD st (.str "action") (.str "")
    else pure (.str "")
  let (action_instructions, action_tools) ← findAction current_action list_actions
  let beliefs ←
    if pyTruthy ws then do
      let st ← vGetD ws (.str "state") (.dict [])
      vGetD st (.str "beliefs") (.dict [])
    else pure (.dict [])
  let bs ← string_from_object beliefs
  let belief_str := "Current beliefs: " ++ bs
  let messages := metaMessages env.now action_instructions belief_str ++ ml
  let (messages, approved) ←
    if pyTruthy action_tools && !no_tools then do
      let ats ← asStr action_tools
      pure (messages ++
        [sysMsg (.str ("In case you need them, the following tools are recommended to execute this action: "
          ++ env.J.dumps action_tools))],
        (ats.splitOn ",").map (fun s => s.trim))
    else pure (messages, [])
  let tools ←
    if no_tools then pure Val.none
    else do
      let lt ← buildTools env.J approved list_tools
      pure (Val.list lt)
  let prompt := Val.dict [(.str "model", .str "gpt-3.5-turbo"),
    (.str "messages", .list messages), (.str "tools", tools),
    (.str "temperature", .int 0), (.str "tool_choice", .str "auto")]
  pure (sanitize prompt)

/-- The result dict of `interpret` (`success`/`input`/`output`). -/
structure IResult where
  success : Bool
  input : Val
  output : Val
deriving DecidableEq

def interpretAux (env : Env) (updateTurnResp : Val) (no_tools : Bool)
    (list_actions : List Val) (list_tools : List Val) : Option IResult := do
  let prompt ← interpretPrompt env no_tools list_actions list_tools
  let resp := env.llm prompt
  if ¬pyTruthy resp then pure ⟨false, .str "", resp⟩
  else do
    let v ← validate_interpret_openai_llm_response env.J resp
    match v with
    | .fail reason => pure ⟨false, resp, .str reason⟩
    | .ok validated =>
        let _ := save_chat updateTurnResp validated
        pure ⟨true, prompt, validated⟩

/-- `AgentUtilities.interpret`.  On an exception the Python code returns
`{'success': False, 'input': '', 'output': str(e)}`; the exception text
is not modelled. -/
def interpret (env : Env) (updateTurnResp : Val) (no_tools : Bool := false)
    (list_actions : List Val := []) (list_tools : List Val := []) : IResult :=
  match interpretAux env updateTurnResp no_tools list_actions list_tools with
  | some r => r
  | Option.none => ⟨false, .str "", .str "Error"⟩

/-! ## Act stage name resolution (`act`, lines 1804-1943).

`act` begins (before its `try` block, lines 1807-1811) with
`for t in list_tools_raw: ...`.  Python resolves the name
`list_tools_raw` against the function's local bindings (its parameters
and the names assigned anywhere in its body), then the module's global
namespace, then builtins.  The two tables below transcribe those scopes
from the source file. -/

/-- Parameters of `act` plus every name assigned in its body
(Python locals are the statically assigned names). -/
def actLocalNames : List String :=
  ["self", "plan", "list_tools", "action", "list_handlers", "t",
   "tool_name", "params", "tid", "error_msg", "handler_route", "parts",
   "portfolio", "org", "response", "clean_output", "clean_output_str",
   "interface", "tool_out", "index", "tool_input", "tool_input_obj",
   "value", "error_result", "e"]

/-- Module-level names of `agent_utilities.py` (its imports and the two
class definitions). -/
def agentUtilitiesModuleNames : List String :=
  ["DataController", "DocsController", "ChatController", "SchdController",
   "WebSocketClient", "OpenAI", "random", "json", "datetime", "List",
   "Dict", "Any", "Callable", "re", "Decimal", "time", "uuid",
   "DecimalEncoder", "AgentUtilities"]

/-- Name resolution for a name read inside `act` (builtins omitted:
no Python builtin is involved in the claims below). -/
def actNameResolves (n : String) : Bool :=
  actLocalNames.contains n || agentUtilitiesModuleNames.contains n

/-! ## Basic dictionary lemmas -/

theorem dGet_map_replace (d : List (Val × Val)) (k v : Val) :
    dGet (d.map (fun kv => if kv.1 = k then (k, v) else kv)) k =
      if d.any (fun kv => kv.1 = k) then some v else Option.none := by
  induction d with
  | nil => simp [dGet]
  | cons hd tl ih =>
      rcases hd with ⟨a, b⟩
      by_cases hhd : a = k
      · subst hhd
        rw [List.map_cons,
          show (if ((a, b) : Val × Val).1 = a then ((a : Val), v) else ((a : Val), b)) = ((a : Val), v) from by simp]
        simp [dGet]
      · rw [List.map_cons,
          show (if ((a, b) : Val × Val).1 = k then ((k : Val), v) else ((a : Val), b)) = ((a : Val), b) from by simp [hhd]]
        have hdec : (decide (a = k) : Bool) = false := by simp [hhd]
        simp only [dGet, if_neg hhd, ih, List.any_cons]
        simp only [hdec, Bool.false_or]

theorem dGet_map_replace_ne (d : List (Val × Val)) (k k2 v : Val) (h : k2 ≠ k) :
    dGet (d.map (fun kv => if kv.1 = k then (k, v) else kv)) k2 = dGet d k2 := by
  induction d with
  | nil => simp [dGet]
  | cons hd tl ih =>
      rcases hd with ⟨a, b⟩
      by_cases hhd : a = k
      · subst hhd
        rw [List.map_cons,
          show (if ((a, b) : Val × Val).1 = a then ((a : Val), v) else ((a : Val), b)) = ((a : Val), v) from by simp]
        have h1 : ¬(a = k2) := fun he => h he.symm
        simp [dGet, h1, ih]
      · rw [List.map_cons,
          show (if ((a, b) : Val × Val).1 = k then ((k : Val), v) else ((a : Val), b)) = ((a : Val), b) from by simp [hhd]]
        by_cases hhd2 : a = k2
        · simp [dGet, hhd2]
        · simp [dGet, hhd2, ih]

theorem dGet_append (d e : List (Val × Val)) (k : Val) :
    dGet (d ++ e) k =
      (match dGet d k with
       | some v => some v
       | Option.none => dGet e k) := by
  induction d with
  | nil => simp [dGet]
  | cons hd tl ih =>
      rcases hd with ⟨a, b⟩
      by_cases hhd : a = k
      · simp [dGet, hhd]
      · simp [dGet, hhd, ih]

theorem dGet_eq_none_of_any_false (d : List (Val × Val)) (k : Val)
    (h : d.any (fun kv => kv.1 = k) = false) : dGet d k = Option.none := by
  induction d with
  | nil => simp [dGet]
  | cons hd tl ih =>
      rcases hd with ⟨a, b⟩
      simp only [List.any_cons, Bool.or_eq_false_iff] at h
      have hhd : ¬(a = k) := by simpa using h.1
      simp only [dGet, if_neg hhd]
      exact ih h.2

theorem dGet_dSet_self (d : List (Val × Val)) (k v : Val) :
    dGet (dSet d k v) k = some v := by
  by_cases hany : d.any (fun kv => kv.1 = k)
  · simp [dSet, hany, dGet_map_replace]
  · simp only [dSet, hany, Bool.false_eq_true, if_false]
    rw [dGet_append, dGet_eq_none_of_any_false d k (Bool.eq_false_iff.mpr hany)]
    simp [dGet]

theorem dGet_dSet_ne (d : List (Val × Val)) (k k2 v : Val) (h : k2 ≠ k) :
    dGet (dSet d k v) k2 = dGet d k2 := by
  by_cases hany : d.any (fun kv => kv.1 = k)
  · simp [dSet, hany, dGet_map_replace_ne d k k2 v h]
  · simp only [dSet, hany, Bool.false_eq_true, if_false]
    rw [dGet_append]
    have hne : ¬(k = k2) := fun he => h he.symm
    have hlast : dGet [(k, v)] k2 = Option.none := by
      simp [dGet, hne]
    cases hd : dGet d k2 <;> simp [hd, hlast]

theorem dHas_of_dGet_some (d : List (Val × Val)) (k v : Val)
    (h : dGet d k = some v) : dHas d k = true := by
  induction d with
  | nil => simp [dGet] at h
  | cons hd tl ih =>
      rcases hd with ⟨a, b⟩
      by_cases hhd : a = k
      · simp [dHas, hhd]
      · simp only [dGet, if_neg hhd] at h
        have htl := ih h
        simp only [dHas, List.any_cons]
        simp only [dHas] at htl
        rw [htl, Bool.or_true]

theorem dGet_isSome_of_dHas (d : List (Val × Val)) (k : Val)
    (h : dHas d k = true) : ∃ v, dGet d k = some v := by
  induction d with
  | nil => simp [dHas] at h
  | cons hd tl ih =>
      rcases hd with ⟨a, b⟩
      by_cases hhd : a = k
      · exact ⟨b, by simp [dGet, hhd]⟩
      · simp only [dHas, List.any_cons, Bool.or_eq_true] at h
        rcases h with h | h
        · exact absurd (by simpa using h) hhd
        · rcases ih (by simpa [dHas] using h) with ⟨v, hv⟩
          exact ⟨v, by simp [dGet, hhd, hv]⟩

theorem map_replace_id (d : List (Val × Val)) (k v : Val)
    (h : d.any (fun kv => kv.1 = k) = false) :
    d.map (fun kv => if kv.1 = k then (k, v) else kv) = d := by
  induction d with
  | nil => simp
  | cons hd tl ih =>
      rcases hd with ⟨a, b⟩
      simp only [List.any_cons, Bool.or_eq_false_iff] at h
      have hhd : ¬(a = k) := by simpa using h.1
      simp [hhd, ih h.2]

/-- Writing back the value a key already holds leaves a duplicate-free
dict unchanged (real Python dicts cannot hold duplicate keys). -/
theorem dSet_self (d : List (Val × Val)) (k v : Val) (h : dGet d k = some v)
    (hnd : (d.map Prod.fst).Nodup) : dSet d k v = d := by
  have hany : d.any (fun kv => kv.1 = k) = true := dHas_of_dGet_some d k v h
  simp only [dSet, hany, if_true]
  clear hany
  induction d with
  | nil => simp
  | cons hd tl ih =>
      rcases hd with ⟨a, b⟩
      simp only [List.map_cons, List.nodup_cons] at hnd
      by_cases hhd : a = k
      · subst hhd
        have hb : b = v := by simpa [dGet] using h
        have htl : tl.any (fun kv => kv.1 = a) = false := by
          rw [List.any_eq_false]
          intro kv hkv
          simp only [decide_eq_true_eq]
          intro he
          exact hnd.1 (he ▸ List.mem_map_of_mem Prod.fst hkv)
        rw [List.map_cons,
          show (if ((a, b) : Val × Val).1 = a then ((a : Val), v) else ((a : Val), b)) = ((a : Val), v) from by simp,
          map_replace_id tl a v htl, hb]
      · simp only [dGet, if_neg hhd] at h
        rw [List.map_cons,
          show (if ((a, b) : Val × Val).1 = k then ((k : Val), v) else ((a : Val), b)) = ((a : Val), b) from by simp [hhd],
          ih h hnd.2]

/-! ## Sanitizer lemmas and claim C2 -/

theorem sanitizeList_eq_map : ∀ l : List Val, sanitizeList l = l.map sanitize
  | [] => rfl
  | x :: xs => by simp [sanitizeList, sanitizeList_eq_map xs]

theorem sanitizeDict_eq_map : ∀ d : List (Val × Val),
    sanitizeDict d = d.map (fun kv => (kv.1, sanitize kv.2))
  | [] => rfl
  | (k, v) :: kvs => by simp [sanitizeDict, sanitizeDict_eq_map kvs]

theorem sanitizeDict_keys (d : List (Val × Val)) :
    (sanitizeDict d).map Prod.fst = d.map Prod.fst := by
  rw [sanitizeDict_eq_map, List.map_map]
  rfl

mutual
theorem sanitize_idem : ∀ v : Val, wholeDecsOnly v → sanitize (sanitize v) = sanitize v
  | .str _, _ => by simp [sanitize]
  | .int _, _ => by simp [sanitize]
  | .bool _, _ => by simp [sanitize]
  | .none, _ => by simp [sanitize]
  | .float _, _ => by simp [sanitize]
  | .dec m e, h => by
      have hd : ((10 : Int) ^ e) ∣ m := h
      simp [sanitize, hd]
  | .list l, h => by
      have hl : wholeDecsOnlyList l := h
      simp only [sanitize]
      rw [sanitizeList_idem l hl]
  | .dict d, h => by
      have hd : wholeDecsOnlyDict d := h
      simp only [sanitize]
      rw [sanitizeDict_idem d hd]

theorem sanitizeList_idem : ∀ l : List Val, wholeDecsOnlyList l →
    sanitizeList (sanitizeList l) = sanitizeList l
  | [], _ => rfl
  | x :: xs, h => by
      have hx : wholeDecsOnly x := h.1
      have hxs : wholeDecsOnlyList xs := h.2
      simp only [sanitizeList]
      rw [sanitize_idem x hx, sanitizeList_idem xs hxs]

theorem sanitizeDict_idem : ∀ d : List (Val × Val), wholeDecsOnlyDict d →
    sanitizeDict (sanitizeDict d) = sanitizeDict d
  | [], _ => rfl
  | (k, v) :: kvs, h => by
      have hv : wholeDecsOnly v := h.1
      have hkvs : wholeDecsOnlyDict kvs := h.2
      simp only [sanitizeDict]
      rw [sanitize_idem v hv, sanitizeDict_idem kvs hkvs]
end

/-- C2 (corrected).  `sanitize` preserves mapping key order and sequence
order unconditionally, and is idempotent on every value built from
strings, booleans, integers, floats, nested mappings/sequences and
*whole-number* decimals.  It is not idempotent on values containing a
non-whole decimal (see `claim_C2_counterexample`): the first pass turns
such a decimal into a float and the second pass turns that float into a
string. -/
theorem claim_C2 :
    (∀ v : Val, wholeDecsOnly v → sanitize (sanitize v) = sanitize v) ∧
    (∀ d : List (Val × Val),
        sanitize (.dict d) = .dict (d.map (fun kv => (kv.1, sanitize kv.2))) ∧
        (sanitizeDict d).map Prod.fst = d.map Prod.fst) ∧
    (∀ l : List Val, sanitize (.list l) = .list (l.map sanitize)) := by
  refine ⟨sanitize_idem, fun d => ⟨?_, sanitizeDict_keys d⟩, fun l => ?_⟩
  · simp [sanitize, sanitizeDict_eq_map]
  · simp [sanitize, sanitizeList_eq_map]

/-- C2: the claim as stated is false — `Decimal('1.5')` sanitises to the
float `1.5`, which a second `sanitize` pass converts to the string
`'1.5'`. -/
theorem claim_C2_counterexample :
    sanitize (sanitize (.dec 15 1)) ≠ sanitize (.dec 15 1) ∧
    sanitize (.dec 15 1) = .float "1.5" ∧
    sanitize (sanitize (.dec 15 1)) = .str "1.5" := by
  refine ⟨?_, by decide, by decide⟩
  decide

/-- Witness for `claim_C2` at a concrete value mixing a float, a whole
decimal and nesting. -/
theorem claim_C2_witness :
    wholeDecsOnly (.dict [(.str "a", .float "1.5"),
                          (.str "b", .list [.dec 20 1, .str "x"])]) ∧
    sanitize (sanitize (.dict [(.str "a", .float "1.5"),
                               (.str "b", .list [.dec 20 1, .str "x"])])) =
      sanitize (.dict [(.str "a", .float "1.5"),
                       (.str "b", .list [.dec 20 1, .str "x"])]) :=
  ⟨by decide, claim_C2.1 _ (by decide)⟩

/-! ## Value-level helper lemmas -/

theorem vGet_dict (d : List (Val × Val)) (k : Val) : vGet (.dict d) k = dGet d k := by
  simp [vGet, asDict]

theorem vSet_dict (d : List (Val × Val)) (k x : Val) :
    vSet (.dict d) k x = some (.dict (dSet d k x)) := by
  simp [vSet, asDict]

theorem pyIn_dict (d : List (Val × Val)) (k : Val) :
    pyIn k (.dict d) = some (dHas d k) := rfl

/-! ## Claim C8: `new_state_machine` never overwrites an existing plan -/

/-- Definitional reduction of `applyChange` at key `new_state_machine`
(the branch at source lines 631-641). -/
theorem applyChange_new_state_machine (now : String) (w out : Val) :
    applyChange now w (.str "new_state_machine") out =
      (match asDict out with
       | some od => do
          let pid ← dGet od (.str "plan_id")
          let hasSM ← pyIn (.str "state_machine") w
          let w ← if ¬hasSM then vSet w (.str "state_machine") (.dict []) else pure w
          let sm ← vGet w (.str "state_machine")
          let hasPid ← pyIn pid sm
          if ¬hasPid then vSet2 w (.str "state_machine") pid (sanitize out)
          else some w
       | Option.none => some w) := rfl

/-- C8.  For a workspace dict whose `state_machine` mapping is present,
a `new_state_machine` change with `plan_id` equal to `pid`:
(i) is a complete no-op on the workspace when `state_machine[pid]`
already exists, and (ii) inserts (only) `state_machine[pid] :=
sanitize(output)` when it does not. -/
theorem claim_C8 (now : String) (wd sm od : List (Val × Val)) (pid : Val)
    (hsm : dGet wd (.str "state_machine") = some (.dict sm))
    (hpid : dGet od (.str "plan_id") = some pid) :
    (dHas sm pid = true →
      applyChange now (.dict wd) (.str "new_state_machine") (.dict od) =
        some (.dict wd)) ∧
    (dHas sm pid = false →
      applyChange now (.dict wd) (.str "new_state_machine") (.dict od) =
        some (.dict (dSet wd (.str "state_machine")
          (.dict (dSet sm pid (sanitize (.dict od))))))) := by
  have hhasSM : dHas wd (.str "state_machine") = true :=
    dHas_of_dGet_some _ _ _ hsm
  constructor
  · intro hin
    rw [applyChange_new_state_machine]
    simp only [asDict, hpid, Option.bind_eq_bind, Option.some_bind, pyIn_dict,
      hhasSM, vGet_dict, hsm, hin, not_true, Bool.not_true, ite_false,
      Bool.false_eq_true, if_false]
    simp [vGet_dict, hsm, pyIn_dict, hin]
  · intro hout
    rw [applyChange_new_state_machine]
    simp only [asDict, hpid, Option.bind_eq_bind, Option.some_bind, pyIn_dict,
      hhasSM, vGet_dict, hsm, hout, Bool.not_true, Bool.not_false,
      Bool.false_eq_true, if_false, if_true, ite_true]
    simp [vSet2, vGet_dict, hsm, vSet_dict, pyIn_dict, hout]

/-- Witness for `claim_C8`: a workspace whose `state_machine` already
holds plan `p1` is untouched by a `new_state_machine` change for `p1`. -/
theorem claim_C8_witness :
    applyChange "t" (.dict [(.str "state_machine",
        .dict [(.str "p1", .dict [(.str "steps", .list [])])])])
      (.str "new_state_machine") (.dict [(.str "plan_id", .str "p1")]) =
      some (.dict [(.str "state_machine",
        .dict [(.str "p1", .dict [(.str "steps", .list [])])])]) :=
  (claim_C8 "t" [(.str "state_machine",
      .dict [(.str "p1", .dict [(.str "steps", .list [])])])]
    [(.str "p1", .dict [(.str "steps", .list [])])]
    [(.str "plan_id", .str "p1")] (.str "p1") (by decide) (by decide)).1 (by decide)

/-! ## Claim C5: the response validator -/

/-- C5 (corrected).  The validator
(i) rejects any dict response whose `role` value is not `"assistant"`;
(ii) rejects any assistant response whose `content` and `tool_calls` are
both null or absent;
(iii) when `content` and `tool_calls` are both non-null, forces `content`
to the empty string and then still runs the structural tool-call
validation — the message is accepted (with empty content) or rejected by
that validation, not unconditionally accepted;
(iv) accepts the concrete message with
`tool_calls=[{id:"1", type:"function", function:{name:"x", arguments:"{}"}}]`. -/
theorem claim_C5 :
    (∀ (J : JsonOps) (rd : List (Val × Val)) (r : Val),
       dGet rd (.str "role") = some r → r ≠ .str "assistant" →
       validate_interpret_openai_llm_response J (.dict rd) =
         some (.fail "Response role must be assistant")) ∧
    (∀ (J : JsonOps) (rd : List (Val × Val)),
       dGet rd (.str "role") = some (.str "assistant") →
       (dGet rd (.str "content")).getD Val.none = Val.none →
       (dGet rd (.str "tool_calls")).getD Val.none = Val.none →
       validate_interpret_openai_llm_response J (.dict rd) =
         some (.fail "Response must have either non-null content or non-null tool_calls")) ∧
    (∀ (J : JsonOps) (rd : List (Val × Val)) (c tc : Val),
       dGet rd (.str "role") = some (.str "assistant") →
       dGet rd (.str "content") = some c → c ≠ Val.none →
       dGet rd (.str "tool_calls") = some tc → tc ≠ Val.none →
       (∃ reason, validate_interpret_openai_llm_response J (.dict rd) =
          some (.fail reason)) ∨
       (∃ od, validate_interpret_openai_llm_response J (.dict rd) =
          some (.ok (.dict od)) ∧ dGet od (.str "content") = some (.str ""))) ∧
    (validate_interpret_openai_llm_response jsonToy
        (.dict [(.str "role", .str "assistant"),
                (.str "tool_calls", .list [.dict [(.str "id", .str "1"),
                  (.str "type", .str "function"),
                  (.str "function", .dict [(.str "name", .str "x"),
                    (.str "arguments", .str "\x7b\x7d")])]])]) =
      some (.ok (.dict [(.str "role", .str "assistant"),
                (.str "tool_calls", .list [.dict [(.str "id", .str "1"),
                  (.str "type", .str "function"),
                  (.str "function", .dict [(.str "name", .str "x"),
                    (.str "arguments", .str "\x7b\x7d")])]])]))) := by
  refine ⟨?_, ?_, ?_, by decide⟩
  · intro J rd r hrole hne
    have hhas : dHas rd (.str "role") = true := dHas_of_dGet_some _ _ _ hrole
    simp [validate_interpret_openai_llm_response, pyIn_dict, hhas, vGet_dict,
      hrole, hne]
  · intro J rd hrole hc htc
    have hhas : dHas rd (.str "role") = true := dHas_of_dGet_some _ _ _ hrole
    by_cases hhc : dHas rd (.str "content") = true
    · rcases dGet_isSome_of_dHas _ _ hhc with ⟨v, hv⟩
      rw [hv] at hc
      simp only [Option.getD_some] at hc
      subst hc
      by_cases httc : dHas rd (.str "tool_calls") = true
      · rcases dGet_isSome_of_dHas _ _ httc with ⟨w, hw⟩
        rw [hw] at htc
        simp only [Option.getD_some] at htc
        subst htc
        simp [validate_interpret_openai_llm_response, pyIn_dict, hhas, hhc,
          httc, vGet_dict, hrole, hv, hw]
      · have httc2 : dHas rd (.str "tool_calls") = false := by
          simpa using httc
        simp [validate_interpret_openai_llm_response, pyIn_dict, hhas, hhc,
          httc2, vGet_dict, hrole, hv]
    · have hhc2 : dHas rd (.str "content") = false := by simpa using hhc
      by_cases httc : dHas rd (.str "tool_calls") = true
      · rcases dGet_isSome_of_dHas _ _ httc with ⟨w, hw⟩
        rw [hw] at htc
        simp only [Option.getD_some] at htc
        subst htc
        simp [validate_interpret_openai_llm_response, pyIn_dict, hhas, hhc2,
          httc, vGet_dict, hrole, hw]
      · have httc2 : dHas rd (.str "tool_calls") = false := by
          simpa using httc
        simp [validate_interpret_openai_llm_response, pyIn_dict, hhas, hhc2,
          httc2, vGet_dict, hrole]
  · intro J rd c tc hrole hcget hcne htcget htcne
    have hhas : dHas rd (.str "role") = true := dHas_of_dGet_some _ _ _ hrole
    have hhc : dHas rd (.str "content") = true := dHas_of_dGet_some _ _ _ hcget
    have httc : dHas rd (.str "tool_calls") = true := dHas_of_dGet_some _ _ _ htcget
    have hkeys : (Val.str "tool_calls") ≠ (Val.str "content") := by decide
    have hkeys2 : (Val.str "content") ≠ (Val.str "tool_calls") := by decide
    have htc2 : dGet (dSet rd (.str "content") (.str "")) (.str "tool_calls") =
        some tc := by rw [dGet_dSet_ne _ _ _ _ hkeys, htcget]
    simp only [validate_interpret_openai_llm_response, pyIn_dict, hhas,
      Option.bind_eq_bind, Option.some_bind, vGet_dict, hrole, hhc, httc,
      hcget, htcget, if_true, ite_true]
    simp only [hcne, htcne, ne_eq, not_false_eq_true,
      Bool.true_and, Bool.and_self, Bool.or_self, Bool.not_true,
      Bool.false_eq_true, if_false, if_true, ite_true, ite_false,
      vSet_dict, Option.some_bind, vGet_dict, htc2]
    cases htcl : asList tc with
    | none =>
        left
        simp [vGet_dict, htc2, htcl]
    | some tcs =>
        simp only [vGet_dict, htc2, Option.some_bind, htcl]
        cases hvtc : validateToolCalls J tcs with
        | error e =>
            left
            simp [hvtc]
        | ok tcs2 =>
            right
            have hcont : dGet (dSet (dSet rd (.str "content") (.str ""))
                (.str "tool_calls") (.list tcs2)) (.str "content") =
                some (.str "") := by
              rw [dGet_dSet_ne _ _ _ _ hkeys2, dGet_dSet_self]
            refine ⟨dSet (dSet rd (.str "content") (.str ""))
                (.str "tool_calls") (.list tcs2), ?_, hcont⟩
            simp [hvtc, vSet_dict, vGet_dict, hcont]

/-- Witness for `claim_C5`: a message with role `user` is rejected. -/
theorem claim_C5_witness :
    validate_interpret_openai_llm_response jsonToy
        (.dict [(.str "role", .str "user"), (.str "content", .str "hi")]) =
      some (.fail "Response role must be assistant") :=
  claim_C5.1 jsonToy [(.str "role", .str "user"), (.str "content", .str "hi")]
    (.str "user") (by decide) (by decide)

/-- C5: the claim as stated is false — a message whose `content` and
`tool_calls` are both non-null is *not* always accepted: with
`tool_calls = 1` (non-null, not a list) the validator rejects it. -/
theorem claim_C5_counterexample :
    validate_interpret_openai_llm_response jsonToy
        (.dict [(.str "role", .str "assistant"), (.str "content", .str "hi"),
                (.str "tool_calls", .int 1)]) =
      some (.fail "tool_calls must be a list") := by
  decide

/-! ## Claim C6: history pruning -/

theorem keepLastSeen_eq_keepLastByKey : ∀ l : List Val,
    keepLastSeen l [] = keepLastByKey l
  | [] => rfl
  | x :: xs => by
      simp only [keepLastSeen, keepLastByKey]
      have hcond : (match getHKey x with
          | some k => List.contains [] k
          | Option.none => false) = false := by
        cases getHKey x <;> simp
      rw [hcond]
      simp [keepLastSeen_eq_keepLastByKey xs]

theorem keepLastSeen_cons (y : Val) (ys : List Val) (seen : List Val) :
    keepLastSeen (y :: ys) seen =
      if ((match getHKey y with
           | some k2 => seen.contains k2
           | Option.none => false) ||
          ys.any fun z => getHKey z = getHKey y) then keepLastSeen ys seen
      else y :: keepLastSeen ys seen := rfl

theorem keepLastSeen_append (ys : List Val) (x : Val) (k : Val) (seen : List Val)
    (hx : getHKey x = some k) :
    keepLastSeen (ys ++ [x]) seen =
      if seen.contains k then keepLastSeen ys seen
      else keepLastSeen ys (k :: seen) ++ [x] := by
  induction ys generalizing seen with
  | nil =>
      cases hs : seen.contains k with
      | true =>
          have hmem : k ∈ seen := by simpa using hs
          simp [keepLastSeen, hx, hs, hmem]
      | false =>
          have hmem : k ∉ seen := by simpa using hs
          simp [keepLastSeen, hx, hs, hmem]
  | cons y ys ih =>
      by_cases hs : seen.contains k = true
      · simp only [hs, if_true, ite_true] at ih ⊢
        rw [List.cons_append, keepLastSeen_cons, keepLastSeen_cons]
        have hcond : ((match getHKey y with
            | some k2 => seen.contains k2
            | Option.none => false) ||
            ((ys ++ [x]).any fun z => getHKey z = getHKey y)) =
            ((match getHKey y with
            | some k2 => seen.contains k2
            | Option.none => false) ||
            (ys.any fun z => getHKey z = getHKey y)) := by
          rw [List.any_append]
          simp only [List.any_cons, List.any_nil, Bool.or_false]
          cases hy : getHKey y with
          | none =>
              have h0 : (decide (getHKey x = (Option.none : Option Val)) : Bool) = false := by
                simp [hx]
              rw [h0, Bool.or_false]
          | some ky =>
              by_cases hk : ky = k
              · subst hk
                have hmem : ky ∈ seen := by simpa using hs
                simp [hmem]
              · have h1 : (decide (getHKey x = some ky) : Bool) = false := by
                  simp only [hx, decide_eq_false_iff_not]
                  intro he
                  exact hk (Option.some.inj he).symm
                rw [h1, Bool.or_false]
        rw [hcond, ih]
        have hmem : k ∈ seen := by simpa using hs
        simp [hmem]
      · have hs2 : seen.contains k = false := by simpa using hs
        simp only [hs2, Bool.false_eq_true, if_false, ite_false] at ih ⊢
        rw [List.cons_append, keepLastSeen_cons, keepLastSeen_cons]
        have hcond : ((match getHKey y with
            | some k2 => seen.contains k2
            | Option.none => false) ||
            ((ys ++ [x]).any fun z => getHKey z = getHKey y)) =
            ((match getHKey y with
            | some k2 => (k :: seen).contains k2
            | Option.none => false) ||
            (ys.any fun z => getHKey z = getHKey y)) := by
          rw [List.any_append]
          simp only [List.any_cons, List.any_nil, Bool.or_false]
          cases hy : getHKey y with
          | none =>
              have h0 : (decide (getHKey x = (Option.none : Option Val)) : Bool) = false := by
                simp [hx]
              rw [h0, Bool.or_false]
          | some ky =>
              by_cases hk : ky = k
              · subst hk
                have hmem : ky ∉ seen := by simpa using hs2
                have h1 : (decide (getHKey x = some ky) : Bool) = true := by
                  simp [hx]
                simp [h1, hmem, List.contains_cons]
              · have h1 : (decide (getHKey x = some ky) : Bool) = false := by
                  simp only [hx, decide_eq_false_iff_not]
                  intro he
                  exact hk (Option.some.inj he).symm
                have h2 : ((ky == k) : Bool) = false := by
                  simp [hk]
                simp [h1, h2, List.contains_cons, hk]
        rw [hcond]
        cases hc : ((match getHKey y with
            | some k2 => (k :: seen).contains k2
            | Option.none => false) ||
            (ys.any fun z => getHKey z = getHKey y)) with
        | true => simp only [if_true, ite_true, ih seen, hs2,
            Bool.false_eq_true, if_false, ite_false]
        | false =>
            simp only [Bool.false_eq_true, if_false, ite_false, ih seen, hs2,
              List.cons_append]

theorem pruneScan_keepLastSeen : ∀ (l : List Val) (seen : List Val),
    (∀ x ∈ l, (getHKey x).isSome) →
    ∃ r, pruneScan l.reverse seen = some r ∧ r.reverse = keepLastSeen l seen := by
  intro l
  induction l using List.reverseRecOn with
  | nil => intro seen _; exact ⟨[], rfl, rfl⟩
  | append_singleton ys x ih =>
      intro seen h
      have hx : (getHKey x).isSome := h x (by simp)
      rcases Option.isSome_iff_exists.mp hx with ⟨k, hk⟩
      have hys : ∀ y ∈ ys, (getHKey y).isSome := fun y hy => h y (by simp [hy])
      rw [show (ys ++ [x]).reverse = x :: ys.reverse by simp]
      rw [keepLastSeen_append ys x k seen hk]
      by_cases hs : seen.contains k = true
      · have hmem : k ∈ seen := by simpa using hs
        rcases ih seen hys with ⟨r, hr, hrrev⟩
        refine ⟨r, ?_, by rw [hrrev]; simp [hmem]⟩
        simp [pruneScan, hk, hmem, hr]
      · have hmem : ¬(k ∈ seen) := by simpa using hs
        rcases ih (k :: seen) hys with ⟨r, hr, hrrev⟩
        refine ⟨x :: r, ?_, ?_⟩
        · simp [pruneScan, hk, hmem, hr]
        · simp only [hs, Bool.false_eq_true, if_false, ite_false]
          rw [List.reverse_cons, hrrev]

theorem firstPassKeys_some : ∀ l : List Val, (∀ x ∈ l, (getHKey x).isSome) →
    firstPassKeys l = some ()
  | [], _ => rfl
  | x :: xs, h => by
      rcases Option.isSome_iff_exists.mp (h x (by simp)) with ⟨k, hk⟩
      have := firstPassKeys_some xs (fun y hy => h y (by simp [hy]))
      simp [firstPassKeys, hk, this]

theorem prune_history_eq (l : List Val) (h : ∀ x ∈ l, (getHKey x).isSome) :
    prune_history l = some (keepLastByKey l) := by
  rcases pruneScan_keepLastSeen l [] h with ⟨r, hr, hrrev⟩
  simp [prune_history, firstPassKeys_some l h, hr, hrrev,
    keepLastSeen_eq_keepLastByKey]

theorem keepLastByKey_sublist : ∀ l : List Val, (keepLastByKey l).Sublist l
  | [] => List.Sublist.refl []
  | x :: xs => by
      simp only [keepLastByKey]
      by_cases hc : (xs.any fun y => getHKey y = getHKey x) = true
      · simp only [hc, if_true, ite_true]
        exact (keepLastByKey_sublist xs).cons x
      · have hc2 : (xs.any fun y => getHKey y = getHKey x) = false := by
          simpa using hc
        simp only [hc2, Bool.false_eq_true, if_false, ite_false]
        exact (keepLastByKey_sublist xs).cons₂ x

theorem keepLastByKey_keys_nodup : ∀ l : List Val,
    ((keepLastByKey l).map getHKey).Nodup
  | [] => List.nodup_nil
  | x :: xs => by
      simp only [keepLastByKey]
      by_cases hc : (xs.any fun y => getHKey y = getHKey x) = true
      · simp only [hc, if_true, ite_true]
        exact keepLastByKey_keys_nodup xs
      · have hc2 : (xs.any fun y => getHKey y = getHKey x) = false := by
          simpa using hc
        simp only [hc2, Bool.false_eq_true, if_false, ite_false, List.map_cons]
        refine List.nodup_cons.mpr ⟨?_, keepLastByKey_keys_nodup xs⟩
        intro hmem
        rcases List.mem_map.mp hmem with ⟨y, hy, hky⟩
        have hyxs : y ∈ xs := (keepLastByKey_sublist xs).subset hy
        have : ∀ y2 ∈ xs, ¬(getHKey y2 = getHKey x) := by
          intro y2 hy2
          have := List.any_eq_false.mp hc2 y2 hy2
          simpa using this
        exact this y hyxs hky

theorem keepLastByKey_keys_mem : ∀ (l : List Val) (k : Option Val),
    (k ∈ (keepLastByKey l).map getHKey ↔ k ∈ l.map getHKey)
  | [], k => Iff.rfl
  | x :: xs, k => by
      simp only [keepLastByKey]
      by_cases hc : (xs.any fun y => getHKey y = getHKey x) = true
      · simp only [hc, if_true, ite_true, List.map_cons, List.mem_cons]
        rcases List.any_eq_true.mp hc with ⟨y, hy, hky⟩
        have hky2 : getHKey y = getHKey x := by simpa using hky
        constructor
        · intro hm
          exact Or.inr ((keepLastByKey_keys_mem xs k).mp hm)
        · intro hm
          rcases hm with hm | hm
          · subst hm
            exact (keepLastByKey_keys_mem xs (getHKey x)).mpr
              (hky2 ▸ List.mem_map_of_mem getHKey hy)
          · exact (keepLastByKey_keys_mem xs k).mpr hm
      · have hc2 : (xs.any fun y => getHKey y = getHKey x) = false := by
          simpa using hc
        simp only [hc2, Bool.false_eq_true, if_false, ite_false, List.map_cons,
          List.mem_cons]
        constructor
        · intro hm
          rcases hm with hm | hm
          · exact Or.inl hm
          · exact Or.inr ((keepLastByKey_keys_mem xs k).mp hm)
        · intro hm
          rcases hm with hm | hm
          · exact Or.inl hm
          · exact Or.inr ((keepLastByKey_keys_mem xs k).mpr hm)

/-- C6.  For every history whose entries all carry a `key` field,
`prune_history` returns exactly the entries with no later entry of the
same key (`keepLastByKey`): a sublist of the input (original relative
order), with pairwise-distinct keys, covering exactly the keys of the
input; and on the spec's concrete example
`[{k:a,t:1},{k:b,t:2},{k:a,t:3}]` it returns `[{k:b,t:2},{k:a,t:3}]`. -/
theorem claim_C6 :
    (∀ l : List Val, (∀ x ∈ l, (getHKey x).isSome) →
      prune_history l = some (keepLastByKey l) ∧
      (keepLastByKey l).Sublist l ∧
      ((keepLastByKey l).map getHKey).Nodup ∧
      (∀ k, k ∈ (keepLastByKey l).map getHKey ↔ k ∈ l.map getHKey)) ∧
    prune_history
        [.dict [(.str "key", .str "a"), (.str "time", .int 1)],
         .dict [(.str "key", .str "b"), (.str "time", .int 2)],
         .dict [(.str "key", .str "a"), (.str "time", .int 3)]] =
      some [.dict [(.str "key", .str "b"), (.str "time", .int 2)],
            .dict [(.str "key", .str "a"), (.str "time", .int 3)]] := by
  constructor
  · intro l h
    exact ⟨prune_history_eq l h, keepLastByKey_sublist l,
      keepLastByKey_keys_nodup l, keepLastByKey_keys_mem l⟩
  · decide

/-- Witness for `claim_C6` at the spec's concrete history. -/
theorem claim_C6_witness :
    prune_history
        [.dict [(.str "key", .str "a"), (.str "time", .int 1)],
         .dict [(.str "key", .str "b"), (.str "time", .int 2)],
         .dict [(.str "key", .str "a"), (.str "time", .int 3)]] =
      some (keepLastByKey
        [.dict [(.str "key", .str "a"), (.str "time", .int 1)],
         .dict [(.str "key", .str "b"), (.str "time", .int 2)],
         .dict [(.str "key", .str "a"), (.str "time", .int 3)]]) :=
  (claim_C6.1 _ (by decide)).1

/-! ## Claim C1: tool_rq followed by one placeholder per tool call -/

/-- A tool-call entry that is a dict with an `id` field (the shape the
validator guarantees before `save_chat` ever sees tool calls). -/
def hasId (tc : Val) : Bool :=
  match asDict tc with
  | some d => (dGet d (.str "id")).isSome
  | Option.none => false

/-- The `tool_rs` placeholder write generated for one tool call. -/
def mkPlaceholder (next tc : Val) : ChatWrite :=
  ⟨.dict [(.str "_out", .dict [(.str "role", .str "tool"),
                               (.str "tool_call_id", (vGet tc (.str "id")).getD .none),
                               (.str "content", .list [])]),
          (.str "_type", .str "tool_rs"),
          (.str "_next", next)], .bool false⟩

theorem placeholderWrites_eq_map (next : Val) : ∀ tcs : List Val,
    tcs.all hasId = true →
    placeholderWrites next tcs = tcs.map (mkPlaceholder next)
  | [], _ => rfl
  | tc :: rest, h => by
      simp only [List.all_cons, Bool.and_eq_true] at h
      have h1 := h.1
      unfold hasId at h1
      cases hd : asDict tc with
      | none => rw [hd] at h1; simp at h1
      | some d =>
          rw [hd] at h1
          rcases Option.isSome_iff_exists.mp h1 with ⟨idv, hidv⟩
          have hvget : vGet tc (.str "id") = some idv := by
            simp [vGet, hd, hidv]
          simp only [placeholderWrites, hvget, List.map_cons]
          rw [placeholderWrites_eq_map next rest h.2]
          simp [mkPlaceholder, hvget]

/-- C1.  A `save_chat` call (default message type) on an assistant
message carrying a non-empty list of tool calls, each a dict with an
`id`, issues exactly the `tool_rq` document followed by one empty
`tool_rs` placeholder per tool call — in tool-call order, each
correlated by that call's id and with empty (`[]`) content — and
nothing else: `N + 1` store writes in one operation. -/
theorem claim_C1 (updResp iface next : Val) (od : List (Val × Val)) (tcs : List Val)
    (htc : dGet od (.str "tool_calls") = some (.list tcs))
    (hrole : dGet od (.str "role") = some (.str "assistant"))
    (hne : tcs ≠ [])
    (hids : tcs.all hasId = true) :
    save_chat updResp (.dict od) iface next .none =
      ⟨.dict [(.str "_out", sanitize (.dict od)), (.str "_type", .str "tool_rq"),
              (.str "_next", next)], .bool false⟩ :: tcs.map (mkPlaceholder next) ∧
    (save_chat updResp (.dict od) iface next .none).length = tcs.length + 1 := by
  have htruthy : pyTruthy (.list tcs) = true := by
    simp [pyTruthy, hne]
  have hmain : save_chat updResp (.dict od) iface next .none =
      ⟨.dict [(.str "_out", sanitize (.dict od)), (.str "_type", .str "tool_rq"),
              (.str "_next", next)], .bool false⟩ :: tcs.map (mkPlaceholder next) := by
    simp only [save_chat, asDict]
    rw [if_neg (show ¬(Val.none = Val.str "consent") from by decide)]
    rw [if_neg (show ¬(Val.none = Val.str "widget") from by decide)]
    simp only [htc, hrole, Option.getD_some, htruthy]
    rw [if_pos (show (true && decide True) = true from by decide)]
    rw [placeholderWrites_eq_map next tcs hids]
    simp [update_chat_message_document]
  exact ⟨hmain, by rw [hmain]; simp⟩

/-- Witness for `claim_C1`: two tool calls produce the `tool_rq` write
plus exactly two placeholders, correlated in order. -/
theorem claim_C1_witness :
    save_chat (.dict []) (.dict [(.str "role", .str "assistant"),
        (.str "content", Val.none),
        (.str "tool_calls", .list
          [.dict [(.str "id", .str "call_1"), (.str "type", .str "function")],
           .dict [(.str "id", .str "call_2"), (.str "type", .str "function")]])])
      (Val.none) (Val.none) (Val.none) =
      [⟨.dict [(.str "_out", sanitize (.dict [(.str "role", .str "assistant"),
          (.str "content", Val.none),
          (.str "tool_calls", .list
            [.dict [(.str "id", .str "call_1"), (.str "type", .str "function")],
             .dict [(.str "id", .str "call_2"), (.str "type", .str "function")]])])),
          (.str "_type", .str "tool_rq"), (.str "_next", Val.none)], .bool false⟩,
       mkPlaceholder Val.none (.dict [(.str "id", .str "call_1"), (.str "type", .str "function")]),
       mkPlaceholder Val.none (.dict [(.str "id", .str "call_2"), (.str "type", .str "function")])] :=
  (claim_C1 (.dict []) Val.none Val.none
    [(.str "role", .str "assistant"), (.str "content", Val.none),
     (.str "tool_calls", .list
       [.dict [(.str "id", .str "call_1"), (.str "type", .str "function")],
        .dict [(.str "id", .str "call_2"), (.str "type", .str "function")]])]
    [.dict [(.str "id", .str "call_1"), (.str "type", .str "function")],
     .dict [(.str "id", .str "call_2"), (.str "type", .str "function")]]
    (by decide) (by decide) (by decide) (by decide)).1

/-! ## Claim C9: clearing tool-message content -/

/-- A message dict whose `role` is `"tool"`. -/
def isToolMsg (m : Val) : Bool :=
  match asDict m with
  | some d => (dGet d (.str "role")).getD Val.none = .str "tool"
  | Option.none => false

/-- The index of the most recent tool message (spec-side): the first
tool message found when scanning the indexed list from the end. -/
def lastToolIdx (ml : List Val) : Option Nat :=
  ((idxList 0 ml).reverse.find? (fun p => isToolMsg p.2)).map Prod.fst

/-- The string the second loop of `clear_tool_message_content` coerces a
message's content to when the message is kept: JSON dump of the
sanitised content for lists and dicts, Python `str` of the sanitised
content otherwise (with `''` as the default for a missing field). -/
def coerceContent (J : JsonOps) (md : List (Val × Val)) : Val :=
  match (dGet md (.str "content")).getD Val.none with
  | .list l => .str (J.dumps (sanitize (.list l)))
  | .dict d => .str (J.dumps (sanitize (.dict d)))
  | _ => .str (pyStr (sanitize ((dGet md (.str "content")).getD (.str ""))))

/-- Element transform of the second loop (spec-side): clear the content
of tool messages outside `tIdx`, coerce content to a string otherwise. -/
def clearElem (J : JsonOps) (tIdx : List Nat) (i : Nat) (m : Val) : Val :=
  match asDict m with
  | some md =>
      if isToolMsg m && !(tIdx.contains i) then
        .dict (dSet md (.str "content") (.str ""))
      else
        .dict (dSet md (.str "content") (coerceContent J md))
  | Option.none => m

def clearMapFrom (J : JsonOps) (tIdx : List Nat) : Nat → List Val → List Val
  | _, [] => []
  | i, m :: rest => clearElem J tIdx i m :: clearMapFrom J tIdx (i + 1) rest

theorem clearOne_dict (J : JsonOps) (tIdx : List Nat) (i : Nat)
    (md : List (Val × Val)) :
    clearOne J tIdx i (.dict md) = some (clearElem J tIdx i (.dict md)) := by
  simp only [clearOne, clearElem, vGetD, asDict, Option.some_bind,
    Option.bind_eq_bind, isToolMsg]
  by_cases hrole : ((dGet md (.str "role")).getD Val.none = Val.str "tool")
  · by_cases hidx : tIdx.contains i = true
    · have hmem : i ∈ tIdx := by simpa using hidx
      simp only [hrole, hidx, decide_eq_true_eq]
      simp [vSet_dict, coerceContent, asDict, hmem]
      cases hc : (dGet md (.str "content")).getD Val.none <;>
        simp [vGetD, asDict, hc, vSet_dict]
    · have hmem : i ∉ tIdx := by simpa using hidx
      simp [hrole, hmem, vSet_dict]
  · simp only [hrole]
    simp [vSet_dict, coerceContent, asDict, hrole]
    cases hc : (dGet md (.str "content")).getD Val.none <;>
      simp [vGetD, asDict, hc, vSet_dict]

theorem clearLoop_eq (J : JsonOps) (tIdx : List Nat) : ∀ (ml : List Val) (i0 : Nat),
    (∀ m ∈ ml, (asDict m).isSome) →
    clearLoop J tIdx i0 ml = some (clearMapFrom J tIdx i0 ml)
  | [], _, _ => rfl
  | m :: rest, i0, h => by
      rcases Option.isSome_iff_exists.mp (h m (by simp)) with ⟨md, hmd⟩
      have hm : m = .dict md := by
        cases m <;> simp [asDict] at hmd <;> simp [hmd]
      subst hm
      simp only [clearLoop, clearMapFrom, clearOne_dict, Option.some_bind,
        Option.bind_eq_bind]
      rw [clearLoop_eq J tIdx rest (i0 + 1) (fun y hy => h y (by simp [hy]))]
      rfl

theorem findToolIndices_one : ∀ ps : List (Nat × Val),
    (∀ p ∈ ps, (asDict p.2).isSome) →
    findToolIndices ps 1 [] =
      some (match ps.find? (fun p => isToolMsg p.2) with
            | some p => [p.1]
            | Option.none => [])
  | [], _ => rfl
  | (i, m) :: rest, h => by
      rcases Option.isSome_iff_exists.mp (h (i, m) (by simp)) with ⟨md, hmd⟩
      have hm : m = .dict md := by
        cases m <;> simp [asDict] at hmd <;> simp [hmd]
      subst hm
      by_cases hrole : isToolMsg (.dict md) = true
      · have hrole2 : ((dGet md (.str "role")).getD Val.none = Val.str "tool") := by
          simpa [isToolMsg, asDict] using hrole
        simp only [findToolIndices, vGetD, asDict, Option.some_bind,
          Option.bind_eq_bind, List.find?]
        simp [hrole2, hrole, isToolMsg, asDict]
      · have hrole2 : ¬((dGet md (.str "role")).getD Val.none = Val.str "tool") := by
          simpa [isToolMsg, asDict] using hrole
        have hfind : (((i, Val.dict md) :: rest).find? (fun p => isToolMsg p.2)) =
            rest.find? (fun p => isToolMsg p.2) := by
          apply List.find?_cons_of_neg
          simpa using hrole
        have hih := findToolIndices_one rest (fun p hp => h p (by simp [hp]))
        simp [findToolIndices, vGetD, asDict, hrole2, hih, hfind]

theorem clearMapFrom_getElem (J : JsonOps) (tIdx : List Nat) :
    ∀ (ml : List Val) (i0 j : Nat),
    (clearMapFrom J tIdx i0 ml)[j]? =
      (ml[j]?).map (fun m => clearElem J tIdx (i0 + j) m)
  | [], _, j => by simp [clearMapFrom]
  | m :: rest, i0, 0 => by simp [clearMapFrom]
  | m :: rest, i0, j + 1 => by
      simp only [clearMapFrom, List.getElem?_cons_succ]
      rw [clearMapFrom_getElem J tIdx rest (i0 + 1) j]
      have : i0 + 1 + j = i0 + (j + 1) := by omega
      rw [this]

theorem idxList_forall (P : Val → Prop) :
    ∀ (ml : List Val) (i0 : Nat), (∀ m ∈ ml, P m) →
    ∀ p ∈ idxList i0 ml, P p.2
  | [], _, _, p, hp => by simp [idxList] at hp
  | m :: rest, i0, h, p, hp => by
      simp only [idxList, List.mem_cons] at hp
      rcases hp with hp | hp
      · subst hp; exact h m (by simp)
      · exact idxList_forall P rest (i0 + 1) (fun y hy => h y (by simp [hy])) p hp

theorem clearMapFrom_length (J : JsonOps) (tIdx : List Nat) :
    ∀ (ml : List Val) (i0 : Nat), (clearMapFrom J tIdx i0 ml).length = ml.length
  | [], _ => rfl
  | _ :: rest, i0 => by
      simp [clearMapFrom, clearMapFrom_length J tIdx rest (i0 + 1)]

theorem toList_contains_of_ne (o : Option Nat) (j : Nat) (h : o ≠ some j) :
    o.toList.contains j = false := by
  cases o with
  | none => rfl
  | some i =>
      have : ¬(j = i) := fun he => h (by rw [he])
      simp [Option.toList, this]

theorem toList_contains_self (j : Nat) :
    (some j : Option Nat).toList.contains j = true := by
  simp [Option.toList]

/-- C9 (corrected).  With the default recent count of 1,
`clear_tool_message_content` on a list of message dicts
(i) sets the content of every tool message except the most recent one to
the empty string, but (ii) does *not* leave the other messages
untouched: each of them has its content coerced to a string — a
list/dict content is sanitised and JSON-serialised, any other content is
sanitised and rendered with `str` (a missing content field becomes the
empty string) — so only messages whose content is already a string are
left unchanged. -/
theorem claim_C9 (J : JsonOps) (ml : List Val) (h : ∀ m ∈ ml, (asDict m).isSome) :
    clear_tool_message_content J ml 1 =
      some (clearMapFrom J (lastToolIdx ml).toList 0 ml) ∧
    (clearMapFrom J (lastToolIdx ml).toList 0 ml).length = ml.length ∧
    (∀ j md, ml[j]? = some (.dict md) → isToolMsg (.dict md) = true →
      lastToolIdx ml ≠ some j →
      (clearMapFrom J (lastToolIdx ml).toList 0 ml)[j]? =
        some (.dict (dSet md (.str "content") (.str "")))) ∧
    (∀ j md s, ml[j]? = some (.dict md) →
      dGet md (.str "content") = some (.str s) →
      (md.map Prod.fst).Nodup →
      (isToolMsg (.dict md) = false ∨ lastToolIdx ml = some j) →
      (clearMapFrom J (lastToolIdx ml).toList 0 ml)[j]? = some (.dict md)) := by
  have hps : ∀ p ∈ (idxList 0 ml).reverse, (asDict p.2).isSome := by
    intro p hp
    exact idxList_forall (fun m => (asDict m).isSome) ml 0 h p
      (List.mem_reverse.mp hp)
  have hmatch : (match (idxList 0 ml).reverse.find? (fun p => isToolMsg p.2) with
      | some p => [p.1]
      | Option.none => ([] : List Nat)) = (lastToolIdx ml).toList := by
    unfold lastToolIdx
    cases (idxList 0 ml).reverse.find? (fun p => isToolMsg p.2) <;> rfl
  refine ⟨?_, clearMapFrom_length J _ ml 0, ?_, ?_⟩
  · unfold clear_tool_message_content
    rw [findToolIndices_one _ hps]
    simp only [Option.some_bind, Option.bind_eq_bind, hmatch]
    exact clearLoop_eq J _ ml 0 h
  · intro j md hmj htool hne
    rw [clearMapFrom_getElem, hmj]
    have hcont : ((lastToolIdx ml).toList.contains j) = false :=
      toList_contains_of_ne _ _ hne
    have hz : 0 + j = j := Nat.zero_add j
    rw [show Option.map (fun m => clearElem J (lastToolIdx ml).toList (0 + j) m)
        (some (.dict md)) =
        some (clearElem J (lastToolIdx ml).toList (0 + j) (.dict md)) from rfl, hz]
    unfold clearElem
    simp [asDict, htool, hcont]
    intro hk
    exact absurd hk hne
  · intro j md s hmj hcget hnd hkeep
    rw [clearMapFrom_getElem, hmj]
    have hcc : coerceContent J md = .str s := by
      unfold coerceContent
      rw [hcget]
      simp [sanitize, pyStr]
    have helse : clearElem J (lastToolIdx ml).toList (0 + j) (.dict md) = .dict md := by
      unfold clearElem
      simp only [asDict]
      rcases hkeep with hk | hk
      · simp only [hk, Bool.false_and, Bool.false_eq_true, if_false, ite_false,
          hcc, dSet_self md _ _ hcget hnd]
      · have : ((lastToolIdx ml).toList.contains (0 + j)) = true := by
          rw [hk]
          simpa using toList_contains_self j
        simp only [this, Bool.not_true, Bool.and_false, Bool.false_eq_true,
          if_false, ite_false, hcc, dSet_self md _ _ hcget hnd]
    rw [show Option.map (fun m => clearElem J (lastToolIdx ml).toList (0 + j) m)
        (some (.dict md)) =
        some (clearElem J (lastToolIdx ml).toList (0 + j) (.dict md)) from rfl, helse]

/-- Witness for `claim_C9` on a concrete transcript: an old tool
message, a user message and a recent tool message. -/
theorem claim_C9_witness :
    clear_tool_message_content jsonToy
        [.dict [(.str "role", .str "tool"), (.str "content", .str "old")],
         .dict [(.str "role", .str "user"), (.str "content", .str "hi")],
         .dict [(.str "role", .str "tool"), (.str "content", .str "new")]] 1 =
      some (clearMapFrom jsonToy
        (lastToolIdx
          [.dict [(.str "role", .str "tool"), (.str "content", .str "old")],
           .dict [(.str "role", .str "user"), (.str "content", .str "hi")],
           .dict [(.str "role", .str "tool"), (.str "content", .str "new")]]).toList 0
        [.dict [(.str "role", .str "tool"), (.str "content", .str "old")],
         .dict [(.str "role", .str "user"), (.str "content", .str "hi")],
         .dict [(.str "role", .str "tool"), (.str "content", .str "new")]]) :=
  (claim_C9 jsonToy _ (by decide)).1

/-- C9: the claim as stated is false — a non-tool message with non-string
content (here the integer 5) does not keep its content unchanged; it is
coerced to the string `"5"`. -/
theorem claim_C9_counterexample :
    clear_tool_message_content jsonToy
        [.dict [(.str "role", .str "user"), (.str "content", .int 5)]] 1 =
      some [.dict [(.str "role", .str "user"), (.str "content", .str "5")]] ∧
    (Val.dict [(.str "role", .str "user"), (.str "content", .str "5")]) ≠
      .dict [(.str "role", .str "user"), (.str "content", .int 5)] := by
  exact ⟨by decide, by decide⟩

/-! ## Claims C3 and C4: mutate_workspace failure semantics -/

theorem mutate_false_of_thread (st : WorkspaceStore) (now : String)
    (thread changes : Val) (wsid : Option Val) (h : pyTruthy thread = false) :
    mutate_workspace st now thread changes wsid = ⟨false, Option.none⟩ := by
  simp [mutate_workspace, h]

theorem mutate_false_of_list_failure (st : WorkspaceStore) (now : String)
    (thread changes : Val) (wsid : Option Val) (s : Val)
    (ht : pyTruthy thread = true)
    (hs : vGet st.listWorkspacesResp (.str "success") = some s)
    (hsf : pyTruthy s = false) :
    mutate_workspace st now thread changes wsid = ⟨false, Option.none⟩ := by
  have hsel : selectWorkspace st wsid = .early := by
    simp [selectWorkspace, hs, hsf]
  cases hcd : asDict (sanitize changes) with
  | none => simp [mutate_workspace, ht, hcd]
  | some cd => simp [mutate_workspace, ht, hcd, hsel]

theorem mutate_false_of_apply_none (st : WorkspaceStore) (now : String)
    (thread changes : Val) (wsid : Option Val) (cd : List (Val × Val)) (w0 w2 : Val)
    (ht : pyTruthy thread = true)
    (hcd : asDict (sanitize changes) = some cd)
    (hsel : selectWorkspace st wsid = .found w0)
    (hens : ensureState (sanitize w0) = some w2)
    (happ : applyChanges now w2 cd = Option.none) :
    mutate_workspace st now thread changes wsid = ⟨false, Option.none⟩ := by
  simp [mutate_workspace, ht, hcd, hsel, hens, happ]

theorem mutate_true_of_success (st : WorkspaceStore) (now : String)
    (thread changes : Val) (wsid : Option Val) (cd : List (Val × Val))
    (w0 w2 w3 wid : Val) (b : Bool)
    (ht : pyTruthy thread = true)
    (hcd : asDict (sanitize changes) = some cd)
    (hsel : selectWorkspace st wsid = .found w0)
    (hens : ensureState (sanitize w0) = some w2)
    (happ : applyChanges now w2 cd = some w3)
    (hid : vGet w3 (.str "_id") = some wid)
    (hupd : pyIn (.str "success") st.updateWorkspaceResp = some b) :
    mutate_workspace st now thread changes wsid =
      ⟨true, some (sanitize w3, wid)⟩ := by
  simp [mutate_workspace, ht, hcd, hsel, hens, happ, hid,
    update_workspace_document, hupd]

/-- C3 (corrected).  `mutate_workspace` returns `False` (with no store
write) when the thread id is missing, when listing the workspaces
reports failure, or when an exception is raised while applying the
change set; but when it reaches the final write it returns `True` for
*any* `update_workspace` response that is a container — in particular a
response carrying no `success` key, which `update_workspace_document`
itself reports as a failure — because the return value of
`update_workspace_document` is discarded (source line 730).  The
document written is the fully sanitised workspace. -/
theorem claim_C3 :
    (∀ (st : WorkspaceStore) (now : String) (thread changes : Val)
       (wsid : Option Val), pyTruthy thread = false →
       mutate_workspace st now thread changes wsid = ⟨false, Option.none⟩) ∧
    (∀ (st : WorkspaceStore) (now : String) (thread changes : Val)
       (wsid : Option Val) (s : Val), pyTruthy thread = true →
       vGet st.listWorkspacesResp (.str "success") = some s →
       pyTruthy s = false →
       mutate_workspace st now thread changes wsid = ⟨false, Option.none⟩) ∧
    (∀ (st : WorkspaceStore) (now : String) (thread changes : Val)
       (wsid : Option Val) (cd : List (Val × Val)) (w0 w2 : Val),
       pyTruthy thread = true →
       asDict (sanitize changes) = some cd →
       selectWorkspace st wsid = .found w0 →
       ensureState (sanitize w0) = some w2 →
       applyChanges now w2 cd = Option.none →
       mutate_workspace st now thread changes wsid = ⟨false, Option.none⟩) ∧
    (∀ (st : WorkspaceStore) (now : String) (thread changes : Val)
       (wsid : Option Val) (cd : List (Val × Val)) (w0 w2 w3 wid : Val) (b : Bool),
       pyTruthy thread = true →
       asDict (sanitize changes) = some cd →
       selectWorkspace st wsid = .found w0 →
       ensureState (sanitize w0) = some w2 →
       applyChanges now w2 cd = some w3 →
       vGet w3 (.str "_id") = some wid →
       pyIn (.str "success") st.updateWorkspaceResp = some b →
       mutate_workspace st now thread changes wsid =
         ⟨true, some (sanitize w3, wid)⟩) :=
  ⟨mutate_false_of_thread,
   fun st now thread changes wsid s ht hs hsf =>
     mutate_false_of_list_failure st now thread changes wsid s ht hs hsf,
   mutate_false_of_apply_none,
   mutate_true_of_success⟩

/-- A store whose `update_workspace` response is the empty dict: it has
no `success` key, which `update_workspace_document` reports as
`{'success': False}` — the store-level persistence-failure signal. -/
def stFailingUpdate : WorkspaceStore where
  listWorkspacesResp :=
    .dict [(.str "success", .bool true),
           (.str "items", .list [.dict [(.str "_id", .str "w1")]])]
  createWorkspaceResp := .dict []
  listWorkspacesResp2 := .dict []
  updateWorkspaceResp := .dict []

/-- C3: the claim as stated is false — with a store whose
`update_workspace` response signals failure (no `success` key, so
`update_workspace_document` returns `{'success': False}`),
`mutate_workspace` still returns `True`. -/
theorem claim_C3_counterexample :
    update_workspace_document stFailingUpdate =
      some (.dict [(.str "success", .bool false),
                   (.str "action", .str "update_workspace_document")]) ∧
    (mutate_workspace stFailingUpdate "2026-01-01T00:00:00" (.str "th")
      (.dict []) Option.none).result = true := by
  exact ⟨by decide, by decide⟩

/-- Witness for `claim_C3`: the success conjunct applied at a concrete
store whose update response reports failure still yields `True`. -/
theorem claim_C3_witness :
    mutate_workspace stFailingUpdate "2026-01-01T00:00:00" (.str "th")
      (.dict []) Option.none =
      ⟨true, some (sanitize (.dict [(.str "_id", .str "w1"),
        (.str "state", defaultState)]), .str "w1")⟩ :=
  claim_C3.2.2.2 stFailingUpdate "2026-01-01T00:00:00" (.str "th") (.dict [])
    Option.none [] (.dict [(.str "_id", .str "w1")])
    (.dict [(.str "_id", .str "w1"), (.str "state", defaultState)])
    (.dict [(.str "_id", .str "w1"), (.str "state", defaultState)])
    (.str "w1") false
    (by decide) (by decide) (by decide) (by decide) (by decide) (by decide)
    (by decide)

/-- The declared step ids of plan `pid` in workspace `w`, normalised to
their string form the way `get_or_create_step` compares them
(`str(step.get('step_id', ''))`); non-dict entries declare nothing. -/
def declaredStepIds (w : Val) (pid : Val) : List String :=
  match vGet3 w (.str "state_machine") pid (.str "steps") with
  | some (.list steps) =>
      steps.filterMap (fun s =>
        match asDict s with
        | some sd => some (pyStr ((dGet sd (.str "step_id")).getD (.str "")))
        | Option.none => Option.none)
  | _ => []

theorem vSet_some_dict (w k x w1 : Val) (h : vSet w k x = some w1) :
    ∃ wd, w = .dict wd ∧ w1 = .dict (dSet wd k x) := by
  cases w <;> simp [vSet, asDict] at h <;> exact ⟨_, rfl, h.symm⟩

theorem vGet_some_dict (w k v : Val) (h : vGet w k = some v) :
    ∃ wd, w = .dict wd ∧ dGet wd k = some v := by
  cases w <;> simp [vGet, asDict] at h <;> exact ⟨_, rfl, h⟩

theorem asList_some (v : Val) (l : List Val) (h : asList v = some l) :
    v = .list l := by
  cases v <;> simp [asList] at h <;> simp [h]

theorem asDict_some (v : Val) (d : List (Val × Val)) (h : asDict v = some d) :
    v = .dict d := by
  cases v <;> simp [asDict] at h <;> simp [h]

theorem vGetD_some (s k d x : Val) (h : vGetD s k d = some x) :
    ∃ sd, s = .dict sd ∧ x = (dGet sd k).getD d := by
  cases s <;> simp [vGetD, asDict] at h <;> exact ⟨_, rfl, h.symm⟩

theorem findStepIdx_mem : ∀ (steps : List Val) (tgt : String) (i j : Nat),
    findStepIdx steps tgt i = some j →
    tgt ∈ steps.filterMap (fun s =>
      match asDict s with
      | some sd => some (pyStr ((dGet sd (.str "step_id")).getD (.str "")))
      | Option.none => Option.none)
  | [], _, _, _, h => by simp [findStepIdx] at h
  | s :: rest, tgt, i, j, h => by
      simp only [findStepIdx, Option.bind_eq_bind] at h
      rcases Option.bind_eq_some.mp h with ⟨sid, hsid, h2⟩
      rcases vGetD_some s (.str "step_id") (.str "") sid hsid with ⟨sd, hs, hx⟩
      subst hs
      have hf : ((fun s => match asDict s with
          | some sd => some (pyStr ((dGet sd (.str "step_id")).getD (.str "")))
          | Option.none => Option.none) (Val.dict sd)) =
          some (pyStr ((dGet sd (.str "step_id")).getD (.str ""))) := by
        simp [asDict]
      by_cases heq : pyStr sid = tgt
      · refine List.mem_filterMap.mpr ⟨Val.dict sd, List.mem_cons_self _ _, ?_⟩
        rw [← heq, hx]
        exact hf
      · have h3 : findStepIdx rest tgt (i + 1) = some j := by
          simpa [heq] using h2
        rcases List.mem_filterMap.mp (findStepIdx_mem rest tgt (i + 1) j h3)
          with ⟨a, ha, hfa⟩
        exact List.mem_filterMap.mpr ⟨a, List.mem_cons_of_mem _ ha, hfa⟩

theorem pure_bind_some {α β : Type} (a : α) (f : α → Option β) :
    (pure a : Option α).bind f = f a := rfl

/-- If `get_or_create_step` finds a step, the target id (the string form
of `plan_step`) is among the plan's declared step ids: the function
never fabricates a step.  (Every branch in which one of its
ensure-inserts fired leaves an empty `steps` list, on which the scan
raises `IndexError`.) -/
theorem get_or_create_step_some (w pid ps : Val) (w2 : Val) (i : Nat)
    (h : get_or_create_step w pid ps = some (w2, i)) :
    pyStr ps ∈ declaredStepIds w pid := by
  unfold get_or_create_step at h
  simp only [Option.bind_eq_bind] at h
  rcases Option.bind_eq_some.mp h with ⟨hasSM, e1, h⟩
  cases hSM : hasSM with
  | false =>
      rw [hSM] at h
      rw [if_pos (show ¬(false = true) from by simp)] at h
      rcases Option.bind_eq_some.mp h with ⟨w1, e2, h⟩
      rcases vSet_some_dict w (.str "state_machine") (.dict []) w1 e2 with
        ⟨wd, hw, hw1⟩
      subst hw
      subst hw1
      rcases Option.bind_eq_some.mp h with ⟨smv, e3, h⟩
      rw [vGet_dict, dGet_dSet_self] at e3
      have hsmv : smv = .dict [] := by injection e3 with e; exact e.symm
      subst hsmv
      rcases Option.bind_eq_some.mp h with ⟨hasPid, e4, h⟩
      have hpid : hasPid = false := by
        simpa [pyIn_dict, dHas] using e4
      rw [hpid] at h
      rw [if_pos (show ¬(false = true) from by simp)] at h
      rcases Option.bind_eq_some.mp h with ⟨wB, e5, h⟩
      simp only [vSet2, vGet_dict, dGet_dSet_self, Option.some_bind,
        Option.bind_eq_bind, vSet_dict] at e5
      have hwB : wB = .dict (dSet (dSet wd (.str "state_machine") (.dict []))
          (.str "state_machine")
          (.dict (dSet [] pid (.dict [(.str "steps", .list [])])))) := by
        injection e5 with e; exact e.symm
      subst hwB
      rcases Option.bind_eq_some.mp h with ⟨entry, e6, h⟩
      simp only [vGet2, vGet_dict, dGet_dSet_self, Option.some_bind,
        Option.bind_eq_bind] at e6
      have hentry : entry = .dict [(.str "steps", .list [])] := by
        injection e6 with e; exact e.symm
      subst hentry
      rcases Option.bind_eq_some.mp h with ⟨hasSteps, e7, h⟩
      have hsteps : hasSteps = true := by
        simpa [pyIn_dict, dHas] using e7
      rw [hsteps] at h
      rw [if_neg (show ¬¬(true = true) from by simp)] at h
      rw [pure_bind_some] at h
      rcases Option.bind_eq_some.mp h with ⟨stepsVal, e9, h⟩
      simp only [vGet3, vGet2, vGet_dict, dGet_dSet_self, Option.some_bind,
        Option.bind_eq_bind] at e9
      rw [show dGet [((Val.str "steps"), Val.list [])] (.str "steps") =
        some (.list []) from by simp [dGet]] at e9
      have hsv : stepsVal = .list [] := by injection e9 with e; exact e.symm
      subst hsv
      rcases Option.bind_eq_some.mp h with ⟨stepsL, e10, h⟩
      have hsl : stepsL = [] := by simpa [asList] using e10.symm
      subst hsl
      rcases Option.bind_eq_some.mp h with ⟨j, e11, h⟩
      simp [findStepIdx] at e11
  | true =>
      rw [hSM] at h
      rw [if_neg (show ¬¬(true = true) from by simp)] at h
      rw [pure_bind_some] at h
      rcases Option.bind_eq_some.mp h with ⟨smv, e3, h⟩
      rcases vGet_some_dict w (.str "state_machine") smv e3 with ⟨wd, hw, hsm⟩
      subst hw
      rcases Option.bind_eq_some.mp h with ⟨hasPid, e4, h⟩
      cases hPid : hasPid with
      | false =>
          rw [hPid] at h
          rw [if_pos (show ¬(false = true) from by simp)] at h
          rcases Option.bind_eq_some.mp h with ⟨wB, e5, h⟩
          simp only [vSet2, vGet_dict, hsm, Option.some_bind,
            Option.bind_eq_bind] at e5
          rcases Option.bind_eq_some.mp e5 with ⟨inner2, einner, e5b⟩
          rcases vSet_some_dict smv pid (.dict [(.str "steps", .list [])])
            inner2 einner with ⟨smd, hsmv, hinner2⟩
          subst hsmv
          subst hinner2
          rw [vSet_dict] at e5b
          have hwB : wB = .dict (dSet wd (.str "state_machine")
              (.dict (dSet smd pid (.dict [(.str "steps", .list [])])))) := by
            injection e5b with e; exact e.symm
          subst hwB
          rcases Option.bind_eq_some.mp h with ⟨entry, e6, h⟩
          simp only [vGet2, vGet_dict, dGet_dSet_self, Option.some_bind,
            Option.bind_eq_bind] at e6
          have hentry : entry = .dict [(.str "steps", .list [])] := by
            injection e6 with e; exact e.symm
          subst hentry
          rcases Option.bind_eq_some.mp h with ⟨hasSteps, e7, h⟩
          have hsteps : hasSteps = true := by
            simpa [pyIn_dict, dHas] using e7
          rw [hsteps] at h
          rw [if_neg (show ¬¬(true = true) from by simp)] at h
          rw [pure_bind_some] at h
          rcases Option.bind_eq_some.mp h with ⟨stepsVal, e9, h⟩
          simp only [vGet3, vGet2, vGet_dict, dGet_dSet_self, Option.some_bind,
            Option.bind_eq_bind] at e9
          rw [show dGet [((Val.str "steps"), Val.list [])] (.str "steps") =
            some (.list []) from by simp [dGet]] at e9
          have hsv : stepsVal = .list [] := by injection e9 with e; exact e.symm
          subst hsv
          rcases Option.bind_eq_some.mp h with ⟨stepsL, e10, h⟩
          have hsl : stepsL = [] := by simpa [asList] using e10.symm
          subst hsl
          rcases Option.bind_eq_some.mp h with ⟨j, e11, h⟩
          simp [findStepIdx] at e11
      | true =>
          rw [hPid] at h
          rw [if_neg (show ¬¬(true = true) from by simp)] at h
          rw [pure_bind_some] at h
          rcases Option.bind_eq_some.mp h with ⟨entry, e6, h⟩
          rcases Option.bind_eq_some.mp h with ⟨hasSteps, e7, h⟩
          cases hSteps : hasSteps with
          | false =>
              rw [hSteps] at h
              rw [if_pos (show ¬(false = true) from by simp)] at h
              rcases Option.bind_eq_some.mp h with ⟨wC, e8, h⟩
              simp only [vSet3, vSet2, vGet_dict, hsm, Option.some_bind,
                Option.bind_eq_bind] at e8
              rcases Option.bind_eq_some.mp e8 with ⟨inner2, einner, e8b⟩
              rcases Option.bind_eq_some.mp einner with ⟨entry2, eentry, einn2⟩
              rcases Option.bind_eq_some.mp einn2 with ⟨entry3, eentry3, einn3⟩
              rcases vGet_some_dict smv pid entry2 eentry with ⟨smd, hsmv, hget2⟩
              subst hsmv
              rcases vSet_some_dict entry2 (.str "steps") (.list []) entry3
                eentry3 with ⟨ed, hentry2, hentry3⟩
              subst hentry2
              subst hentry3
              rw [vSet_dict] at einn3
              have hinner2 : inner2 = .dict (dSet smd pid
                  (.dict (dSet ed (.str "steps") (.list [])))) := by
                injection einn3 with e; exact e.symm
              subst hinner2
              rw [vSet_dict] at e8b
              have hwC : wC = .dict (dSet wd (.str "state_machine")
                  (.dict (dSet smd pid
                    (.dict (dSet ed (.str "steps") (.list [])))))) := by
                injection e8b with e; exact e.symm
              subst hwC
              rcases Option.bind_eq_some.mp h with ⟨stepsVal, e9, h⟩
              simp only [vGet3, vGet2, vGet_dict, dGet_dSet_self,
                Option.some_bind, Option.bind_eq_bind] at e9
              have hsv : stepsVal = .list [] := by injection e9 with e; exact e.symm
              subst hsv
              rcases Option.bind_eq_some.mp h with ⟨stepsL, e10, h⟩
              have hsl : stepsL = [] := by simpa [asList] using e10.symm
              subst hsl
              rcases Option.bind_eq_some.mp h with ⟨j, e11, h⟩
              simp [findStepIdx] at e11
          | true =>
              rw [hSteps] at h
              rw [if_neg (show ¬¬(true = true) from by simp)] at h
              rw [pure_bind_some] at h
              rcases Option.bind_eq_some.mp h with ⟨stepsVal, e9, h⟩
              rcases Option.bind_eq_some.mp h with ⟨stepsL, e10, h⟩
              rcases Option.bind_eq_some.mp h with ⟨j, e11, h⟩
              have hsv : stepsVal = .list stepsL := asList_some _ _ e10
              subst hsv
              have hmem := findStepIdx_mem stepsL (pyStr ps) 0 j e11
              unfold declaredStepIds
              rw [show vGet3 (.dict wd) (.str "state_machine") pid (.str "steps") =
                some (.list stepsL) from e9]
              exact hmem

theorem applyChange_step_state_none (now : String) (w : Val)
    (sod : List (Val × Val)) (pid ps : Val)
    (hpid : dGet sod (.str "plan_id") = some pid)
    (hps : dGet sod (.str "plan_step") = some ps)
    (hg : get_or_create_step w pid ps = Option.none) :
    applyChange now w (.str "step_state") (.dict sod) = Option.none := by
  rw [show applyChange now w (.str "step_state") (.dict sod) =
      (if dHas sod (.str "plan_id") && dHas sod (.str "plan_step") then do
          let pid2 := (dGet sod (.str "plan_id")).getD .none
          let ps2 := (dGet sod (.str "plan_step")).getD .none
          let (w2, i) ← get_or_create_step w pid2 ps2
          let steps ← stepsListOf w2 pid2
          let step ← steps[i]?
          let step2 ← (["status", "error", "started_at", "finished_at"]).foldlM
            (fun s f =>
              if dHas sod (.str f) then vSet s (.str f) ((dGet sod (.str f)).getD .none)
              else pure s) step
          setStepAt w2 pid2 i step2
        else some w) from rfl]
  rw [if_pos (by simp [dHas_of_dGet_some _ _ _ hpid, dHas_of_dGet_some _ _ _ hps])]
  simp only [hpid, hps, Option.getD_some, hg, Option.bind_eq_bind, Option.none_bind]

theorem applyChange_action_log_none (now : String) (w : Val)
    (sod : List (Val × Val)) (pid ps : Val)
    (hpid : dGet sod (.str "plan_id") = some pid)
    (hps : dGet sod (.str "plan_step") = some ps)
    (hg : get_or_create_step w pid ps = Option.none) :
    applyChange now w (.str "action_log") (.dict sod) = Option.none := by
  rw [show applyChange now w (.str "action_log") (.dict sod) =
      (do
        let pid2 ← dGet sod (.str "plan_id")
        let ps2 ← dGet sod (.str "plan_step")
        let log := (["tool", "status", "nonce", "message", "type", "actionable"]).foldl
          (fun (acc : List (Val × Val)) f =>
            if dHas sod (.str f) then dSet acc (.str f) ((dGet sod (.str f)).getD .none)
            else acc) []
        let (w2, i) ← get_or_create_step w pid2 ps2
        let steps ← stepsListOf w2 pid2
        let step ← steps[i]?
        let hasAL ← pyIn (.str "action_log") step
        let step ← if ¬hasAL then vSet step (.str "action_log") (.list []) else pure step
        let al ← vGet step (.str "action_log")
        let all ← asList al
        let step ← vSet step (.str "action_log") (.list (all ++ [Val.dict log]))
        setStepAt w2 pid2 i step) from rfl]
  simp only [hpid, hps, Option.bind_eq_bind, Option.some_bind, hg, Option.none_bind]

/-- C4.  If the (sanitised) change payload of a `step_state` or
`action_log` mutation names a `plan_step` whose string form is not
among the declared step ids of the targeted plan in the selected,
state-normalised workspace, then `mutate_workspace` returns `False` and
issues no store write at all — in particular no new step is fabricated
in the plan step list. -/
theorem claim_C4 (st : WorkspaceStore) (now : String) (thread : Val)
    (wsid : Option Val) (key : String) (od : List (Val × Val))
    (w0 w2 pid ps : Val)
    (hkey : key = "step_state" ∨ key = "action_log")
    (hth : pyTruthy thread = true)
    (hsel : selectWorkspace st wsid = .found w0)
    (hens : ensureState (sanitize w0) = some w2)
    (hpid : dGet (sanitizeDict od) (.str "plan_id") = some pid)
    (hps : dGet (sanitizeDict od) (.str "plan_step") = some ps)
    (hnotin : pyStr ps ∉ declaredStepIds w2 pid) :
    mutate_workspace st now thread (.dict [(.str key, .dict od)]) wsid =
      ⟨false, Option.none⟩ := by
  have hg : get_or_create_step w2 pid ps = Option.none := by
    cases hgo : get_or_create_step w2 pid ps with
    | none => rfl
    | some p =>
        rcases p with ⟨wq, i⟩
        exact absurd (get_or_create_step_some w2 pid ps wq i hgo) hnotin
  have happ : applyChanges now w2 [(.str key, .dict (sanitizeDict od))] =
      Option.none := by
    have hone : applyChange now w2 (.str key) (.dict (sanitizeDict od)) =
        Option.none := by
      rcases hkey with hk | hk <;> subst hk
      · exact applyChange_step_state_none now w2 _ pid ps hpid hps hg
      · exact applyChange_action_log_none now w2 _ pid ps hpid hps hg
    simp [applyChanges, List.foldlM, hone]
  exact mutate_false_of_apply_none st now thread _ wsid
    [(.str key, .dict (sanitizeDict od))] w0 w2 hth rfl hsel hens happ

/-- Concrete store for the C4 witness: one existing workspace with no
`state_machine`, so no step is declared for any plan. -/
def c4Store : WorkspaceStore :=
  { listWorkspacesResp := .dict [(.str "success", .bool true),
      (.str "items", .list [.dict [(.str "_id", .str "w1")]])],
    createWorkspaceResp := .dict [(.str "success", .bool true)],
    listWorkspacesResp2 := .dict [(.str "items", .list [])],
    updateWorkspaceResp := .dict [(.str "success", .bool true)] }

theorem claim_C4_witness :
    pyTruthy (Val.str "t") = true ∧
    selectWorkspace c4Store Option.none =
      .found (.dict [(.str "_id", .str "w1")]) ∧
    ensureState (sanitize (.dict [(.str "_id", .str "w1")])) =
      some (.dict [(.str "_id", .str "w1"), (.str "state", defaultState)]) ∧
    pyStr (Val.str "s1") ∉
      declaredStepIds (.dict [(.str "_id", .str "w1"),
        (.str "state", defaultState)]) (.str "p1") ∧
    mutate_workspace c4Store "2024-01-01T00:00:00" (.str "t")
      (.dict [(.str "step_state",
        .dict [(.str "plan_id", .str "p1"), (.str "plan_step", .str "s1")])])
      Option.none = ⟨false, Option.none⟩ :=
  ⟨by decide, by decide, by decide, by decide,
    claim_C4 c4Store "2024-01-01T00:00:00" (.str "t") Option.none "step_state"
      [(.str "plan_id", .str "p1"), (.str "plan_step", .str "s1")]
      (.dict [(.str "_id", .str "w1")])
      (.dict [(.str "_id", .str "w1"), (.str "state", defaultState)])
      (.str "p1") (.str "s1")
      (Or.inl rfl) (by decide) (by decide) (by decide) (by decide) (by decide)
      (by decide)⟩


/-- C7 (code bug).  The first executed statement of `act`
(`for t in list_tools_raw:`, line 1808) sits before the function's
`try` block (line 1814) and reads the name `list_tools_raw`, which is
neither a local of `act` (the parameter is `list_tools`) nor a
module-level name of `agent_utilities.py`: Python raises an unhandled
`NameError` on every call, so no failure is ever returned as the
structured value the claim describes. -/
theorem claim_C7 : actNameResolves "list_tools_raw" = false := by decide

/-- C10.  Whenever the Interpret stage assembles a prompt, the LLM
response is truthy and validation accepts it with output `out`,
`interpret` returns `(success := true)` with that prompt and output —
for every transcript-store update response whatsoever, including any
failure payload: `save_chat` swallows every persistence error and
returns no indication to `interpret`, which discards even that. -/
theorem claim_C10 (env : Env) (updateTurnResp : Val) (no_tools : Bool)
    (list_actions list_tools : List Val) (p out : Val)
    (hp : interpretPrompt env no_tools list_actions list_tools = some p)
    (hresp : pyTruthy (env.llm p) = true)
    (hval : validate_interpret_openai_llm_response env.J (env.llm p) =
      some (.ok out)) :
    interpret env updateTurnResp no_tools list_actions list_tools =
      ⟨true, p, out⟩ := by
  unfold interpret interpretAux
  simp only [hp, Option.bind_eq_bind, Option.some_bind, hresp]
  rw [if_neg (show ¬¬True from not_not_intro trivial)]
  simp only [hval, Option.some_bind]

/-- Collaborators for the C10 witness: a healthy empty transcript, a
workspace listing that reports failure (so no active workspace), and an
LLM that answers with a plain assistant message. -/
def c10Env : Env :=
  { thread := .str "t", now := "2024-01-01T00:00:00",
    listTurnsResp := .dict [(.str "success", .bool true),
                            (.str "items", .list [])],
    store := { listWorkspacesResp := .dict [(.str "success", .bool false)],
               createWorkspaceResp := .dict [],
               listWorkspacesResp2 := .dict [],
               updateWorkspaceResp := .dict [] },
    llm := fun _ => .dict [(.str "role", .str "assistant"),
                           (.str "content", .str "hi")],
    J := jsonToy }

def c10Prompt : Val :=
  .dict [(.str "model", .str "gpt-3.5-turbo"),
         (.str "messages",
          .list (metaMessages "2024-01-01T00:00:00" (.str "")
            "Current beliefs: ")),
         (.str "tools", .list []),
         (.str "temperature", .int 0),
         (.str "tool_choice", .str "auto")]

set_option maxRecDepth 4000 in
theorem claim_C10_witness :
    interpretPrompt c10Env false [] [] = some c10Prompt ∧
    pyTruthy (c10Env.llm c10Prompt) = true ∧
    validate_interpret_openai_llm_response c10Env.J (c10Env.llm c10Prompt) =
      some (.ok (.dict [(.str "role", .str "assistant"),
                        (.str "content", .str "hi")])) ∧
    interpret c10Env (.dict []) false [] [] =
      ⟨true, c10Prompt,
       .dict [(.str "role", .str "assistant"), (.str "content", .str "hi")]⟩ :=
  ⟨by decide, by decide, by decide,
    claim_C10 c10Env (.dict []) false [] []
      c10Prompt (.dict [(.str "role", .str "assistant"),
                        (.str "content", .str "hi")])
      (by decide) (by decide) (by decide)⟩

end Renglo
